import Mathlib

/-!
Verification development for the `ero-blockwheel-fs` block storage engine.

The development shallowly embeds the Rust sources:
  * `src/block.rs`                      — block identifiers and the CRC oracle;
  * `src/wheel/schema.rs`               — the allocation/deletion planner (`Schema`);
  * `src/wheel/defrag.rs`               — the defragmentation queues;
  * `src/wheel/core/performer.rs`       — the performer state machine;
  * `src/wheel/interpret/fixed_file.rs` — `block_process_job` (read-frame validation).

Modules the schema and the performer depend on (`wheel/index.rs`, `wheel/gaps.rs`,
`wheel/task.rs`, `wheel/storage.rs`, the `wheel/core/*` data structures and the
new-core schema) are not part of the source tree; where a definition below stands
for one of them it is modelled from the specification and its doc comment says so.
-/

namespace Blockwheel

/-! ### Block identifiers (src/block.rs) -/

/-- A block identifier: a monotonically increasing 64-bit serial
(`src/block.rs`, `struct Id`).  Arithmetic is modelled on `Nat`; the serial
only ever grows by one so 64-bit overflow is immaterial here. -/
structure BlockId where
  serial : Nat
deriving DecidableEq, Repr

/-- `Id::init()` returns serial 0 (src/block.rs). -/
def BlockId.init : BlockId := ⟨0⟩

/-- `Id::next(&self)` returns serial + 1 (src/block.rs). -/
def BlockId.next (x : BlockId) : BlockId := ⟨x.serial + 1⟩

/-! ### Storage layout

Modelled from the spec: `wheel/storage.rs` is not in the source tree.  The
field names follow the `storage::Layout` literal used by the schema tests
(src/wheel/schema.rs, `mod tests::init`), and the two derived quantities follow
spec §3: `data_size_block_min = block_header_size + commit_tag_size`,
`data_size_service_min = wheel_header_size + eof_tag_size`. -/

structure Layout where
  wheel_header_size : Nat
  eof_block_header_size : Nat
  regular_block_header_size : Nat
  commit_tag_size : Nat
deriving DecidableEq, Repr

/-- Per-block overhead in bytes (spec §3; used throughout src/wheel/schema.rs). -/
def Layout.data_size_block_min (l : Layout) : Nat :=
  l.regular_block_header_size + l.commit_tag_size

/-- Bytes that can never hold data (spec §3; cf. `min_wheel_file_size` in
src/wheel.rs `wheel_create`). -/
def Layout.data_size_service_min (l : Layout) : Nat :=
  l.wheel_header_size + l.eof_block_header_size

/-! ### Block index entries

`storage::BlockHeader` and `index::BlockEntry` as used by src/wheel/schema.rs;
the modules themselves are not in the tree, the shape is taken from every use
site in the schema (`BlockHeader::Regular { block_id, block_size }` /
`BlockHeader::EndOfFile`, `BlockEntry { offset, header }`). -/

inductive BlockHeader where
  | Regular (block_id : BlockId) (block_size : Nat)
  | EndOfFile
deriving DecidableEq, Repr

/-- The payload size of a header; the end-of-file sentinel has no payload
(spec §3 invariant 3: "its id has no payload"). -/
def BlockHeader.block_size : BlockHeader → Nat
  | .Regular _ s => s
  | .EndOfFile => 0

structure BlockEntry where
  offset : Nat
  header : BlockHeader
deriving DecidableEq, Repr

/-! ### The block index

Modelled from the spec: `wheel/index.rs` is not in the source tree.  Spec §4.2
gives the interface (`insert`, `remove`, `get`); the index is modelled as an
association list kept sorted by strictly increasing serial, the canonical form
of an ordered map. -/

structure Blocks where
  kvs : List (BlockId × BlockEntry)
deriving DecidableEq, Repr

def Blocks.new : Blocks := ⟨[]⟩

def Blocks.get (m : Blocks) (k : BlockId) : Option BlockEntry :=
  (m.kvs.find? (fun p => p.1 == k)).map Prod.snd

def insertSorted (k : BlockId) (v : BlockEntry) :
    List (BlockId × BlockEntry) → List (BlockId × BlockEntry)
  | [] => [(k, v)]
  | p :: rest =>
    if k.serial < p.1.serial then (k, v) :: p :: rest
    else if k.serial = p.1.serial then (k, v) :: rest
    else p :: insertSorted k v rest

def Blocks.insert (m : Blocks) (k : BlockId) (v : BlockEntry) : Blocks :=
  ⟨insertSorted k v m.kvs⟩

/-- `remove(id) → Option<entry>` (spec §4.2). -/
def Blocks.remove (m : Blocks) (k : BlockId) : Blocks × Option BlockEntry :=
  (⟨m.kvs.filter (fun p => ¬ p.1 = k)⟩, m.get k)

/-! ### The gap index

Modelled from the spec: `wheel/gaps.rs` is not in the source tree.  Spec §3
gives `GapBetween ∈ {StartAndBlock, TwoBlocks, BlockAndEnd}`, §4.1 the
interface: best-fit allocation — smallest gap with `space_available ≥
space_required`, ties broken by insertion order — returning `Success`,
`PendingDefragmentation` when no single gap fits but the aggregate does
(`space_total ≥ space_required`), else the `NoSpaceLeft` error.  The index is
modelled as a list in insertion order (oldest first).  `allocate` takes the
block index because a returned gap carries the resolved block entries of its
endpoints (the schema reads `left_block.block_entry` etc.); gaps whose
endpoints do not resolve never win allocation. -/

inductive GapBetween (B : Type) where
  | StartAndBlock (right_block : B)
  | TwoBlocks (left_block : B) (right_block : B)
  | BlockAndEnd (left_block : B)
deriving DecidableEq, Repr

/-- A gap endpoint as handed back by `allocate`: the block id together with its
resolved index entry. -/
structure GapRef where
  block_id : BlockId
  block_entry : BlockEntry
deriving DecidableEq, Repr

def resolveGap (blocks : Blocks) : GapBetween BlockId → Option (GapBetween GapRef)
  | .StartAndBlock r =>
    (blocks.get r).map (fun e => .StartAndBlock ⟨r, e⟩)
  | .TwoBlocks l r =>
    match blocks.get l, blocks.get r with
    | some el, some er => some (.TwoBlocks ⟨l, el⟩ ⟨r, er⟩)
    | _, _ => none
  | .BlockAndEnd l =>
    (blocks.get l).map (fun e => .BlockAndEnd ⟨l, e⟩)

structure GapsIndex where
  gaps : List (Nat × GapBetween BlockId)
deriving DecidableEq, Repr

def GapsIndex.new : GapsIndex := ⟨[]⟩

/-- `insert(space_available, between)` (spec §4.1); newest gaps go to the back
so that insertion order is list order. -/
def GapsIndex.insert (g : GapsIndex) (space_available : Nat)
    (between : GapBetween BlockId) : GapsIndex :=
  ⟨g.gaps ++ [(space_available, between)]⟩

/-- `space_total()` = sum of `space_available` across all gaps (spec §4.1). -/
def GapsIndex.space_total (g : GapsIndex) : Nat :=
  (g.gaps.map Prod.fst).sum

inductive Allocated where
  | Success (space_available : Nat) (between : GapBetween GapRef)
deriving DecidableEq, Repr

inductive GapsOutcome where
  | Success (space_available : Nat) (between : GapBetween GapRef)
  | PendingDefragmentation
  | NoSpaceLeft
deriving DecidableEq, Repr

/-- Best-fit scan: the smallest resolvable gap with enough space; on ties the
earliest-inserted (leftmost) gap wins.  Returns the stored gap together with
its resolved form. -/
def bestFit (space_required : Nat) (blocks : Blocks) :
    List (Nat × GapBetween BlockId) →
      Option (Nat × GapBetween BlockId × GapBetween GapRef)
  | [] => none
  | (sa, bw) :: rest =>
    let tail := bestFit space_required blocks rest
    if space_required ≤ sa then
      match resolveGap blocks bw with
      | some res =>
        match tail with
        | none => some (sa, bw, res)
        | some (sa', bw', res') =>
          if sa ≤ sa' then some (sa, bw, res) else some (sa', bw', res')
      | none => tail
    else tail

def removeFirstGap (x : Nat × GapBetween BlockId) :
    List (Nat × GapBetween BlockId) → List (Nat × GapBetween BlockId)
  | [] => []
  | g :: rest => if g = x then rest else g :: removeFirstGap x rest

/-- `allocate(space_required, &blocks_index)` (spec §4.1): best-fit, consuming
the winning gap; `PendingDefragmentation` when nothing fits but the aggregate
does; `NoSpaceLeft` otherwise. -/
def GapsIndex.allocate (g : GapsIndex) (space_required : Nat) (blocks : Blocks) :
    GapsIndex × GapsOutcome :=
  match bestFit space_required blocks g.gaps with
  | some (sa, bw, res) => (⟨removeFirstGap (sa, bw) g.gaps⟩, .Success sa res)
  | none =>
    if space_required ≤ g.space_total then (g, .PendingDefragmentation)
    else (g, .NoSpaceLeft)

/-! ### Defragmentation queues (src/wheel/defrag.rs) -/

inductive DefragPosition where
  | StartAndBlock (right_block_id : BlockId)
  | TwoBlocks (left_block_id : BlockId) (right_block_id : BlockId)
deriving DecidableEq, Repr

/-- `DefragTask { offset, position }` (src/wheel/defrag.rs). -/
structure DefragTask where
  offset : Nat
  position : DefragPosition
deriving DecidableEq, Repr

/-- `impl Ord for DefragTask` (src/wheel/defrag.rs lines 79-83):
`other.offset.cmp(&self.offset)` — the comparison of the offsets, reversed. -/
def DefragTask.cmp (self other : DefragTask) : Ordering :=
  compare other.offset self.offset

/-- `impl PartialEq for DefragTask` (src/wheel/defrag.rs lines 65-69): equality
compares only the offsets, ignoring the positions. -/
def DefragTask.beq (self other : DefragTask) : Bool :=
  self.offset == other.offset

/-- The defrag `TaskQueue` (src/wheel/defrag.rs lines 31-46): a
`BinaryHeap<DefragTask>`.  The heap is modelled by its multiset of pushed
elements, a list with `push` consing; `pop` (std's `BinaryHeap::pop`, which
returns a greatest element under `Ord`) is modelled below as selection of a
`cmp`-greatest element. -/
structure DefragTaskQueue where
  queue : List DefragTask
deriving Repr

def DefragTaskQueue.new : DefragTaskQueue := ⟨[]⟩

def DefragTaskQueue.push (q : DefragTaskQueue) (offset : Nat)
    (position : DefragPosition) : DefragTaskQueue :=
  ⟨{ offset := offset, position := position } :: q.queue⟩

/-- `BinaryHeap::pop`: modelled from std's documented contract — it yields an
element maximal under the element type's `Ord`.  Among `cmp`-equal elements the
heap's choice is unspecified; the model takes the first maximal element. -/
def heapPop : List DefragTask → Option (DefragTask × List DefragTask)
  | [] => none
  | t :: rest =>
    match heapPop rest with
    | none => some (t, [])
    | some (m, others) =>
      if DefragTask.cmp t m = Ordering.lt then some (m, t :: others)
      else some (t, rest)

/-! ### Old-revision write tasks

Modelled from the spec: `wheel/task.rs` is not in the source tree.  The shape
of `task::WriteBlock` is taken from its construction site in
src/wheel/schema.rs (`block_id`, `block_bytes`, `reply_tx`, `state`,
`commit_type`); the reply channel is modelled by the returned `WriteEffect`
and the `state` field (always constructed as `Header`) is omitted. -/

inductive CommitType where
  | CommitOnly
  | CommitAndEof
deriving DecidableEq, Repr

structure WriteBlockTask where
  block_id : BlockId
  block_bytes : List Nat
  commit_type : CommitType
deriving DecidableEq, Repr

/-! ### The schema (src/wheel/schema.rs) -/

structure Schema where
  next_block_id : BlockId
  storage_layout : Layout
  blocks_index : Blocks
  gaps : GapsIndex
  defrag_pending_queue : List WriteBlockTask
  defrag_task_queue : DefragTaskQueue
deriving Repr

/-- `Schema::new` (src/wheel/schema.rs lines 22-31). -/
def Schema.new (storage_layout : Layout) : Schema :=
  { next_block_id := BlockId.init
    storage_layout := storage_layout
    blocks_index := Blocks.new
    gaps := GapsIndex.new
    defrag_pending_queue := []
    defrag_task_queue := DefragTaskQueue.new }

/-- `Schema::initialize_empty` (src/wheel/schema.rs lines 33-55): insert the
end-of-file sentinel at `wheel_header_size`, insert the initial full-span gap
when the wheel is large enough, and advance `next_block_id`. -/
def Schema.initialize_empty (s : Schema) (size_bytes_total : Nat) : Schema :=
  let eof_entry : BlockEntry := ⟨s.storage_layout.wheel_header_size, .EndOfFile⟩
  let s1 := { s with blocks_index := s.blocks_index.insert s.next_block_id eof_entry }
  let total_service_size := s1.storage_layout.data_size_service_min
      + s1.storage_layout.data_size_block_min
  let s2 :=
    if total_service_size < size_bytes_total then
      { s1 with gaps := s1.gaps.insert (size_bytes_total - total_service_size)
                          (.BlockAndEnd s1.next_block_id) }
    else s1
  { s2 with next_block_id := s2.next_block_id.next }

/-- The observable outcome of `Schema::process_write_block_request`, recording
which allocation arm ran and what it pushed.  `performed` carries the offset
the new block was placed at, the consumed gap (with resolved endpoints), the
commit type of the emitted write task, the gap inserted for the remaining
space (if any) and the defrag task pushed (if any), exactly the values the
source writes into the indices and queues. -/
inductive WriteEffect where
  | performed (block_offset : Nat) (space_available : Nat)
      (between : GapBetween GapRef) (commit_type : CommitType)
      (gap_inserted : Option (Nat × GapBetween BlockId))
      (defrag_pushed : Option DefragTask)
  | pending
  | noSpaceLeftReply
deriving DecidableEq, Repr

/-- `Schema::process_write_block_request` (src/wheel/schema.rs lines 57-210).
Takes the request's payload bytes and the task queue (a list of
`(offset, write task)` pushes standing for `task::Queue`), returns the updated
schema and queue and the observable effect.  The source's `assert!`s in the
`BlockAndEnd` arm (the left block is the end-of-file sentinel) are facts, not
behaviour, and are proved under the well-formedness hypotheses below. -/
def Schema.process_write_block_request (s : Schema) (block_bytes : List Nat)
    (tasks_queue : List (Nat × WriteBlockTask)) :
    Schema × List (Nat × WriteBlockTask) × WriteEffect :=
  let block_id := s.next_block_id
  let s := { s with next_block_id := s.next_block_id.next }
  let space_required := block_bytes.length
  match s.gaps.allocate space_required s.blocks_index with
  | (gaps_after, .Success space_available (.StartAndBlock right_block)) =>
    let block_offset := s.storage_layout.wheel_header_size
    let right_block_id := right_block.block_id
    let s := { s with gaps := gaps_after }
    let s := { s with blocks_index := s.blocks_index.insert block_id
                        ⟨block_offset, .Regular block_id space_required⟩ }
    let space_left := space_available - space_required
    let gap_inserted :=
      if s.storage_layout.data_size_block_min ≤ space_left then
        some (space_left - s.storage_layout.data_size_block_min,
              GapBetween.TwoBlocks block_id right_block_id)
      else none
    let s := match gap_inserted with
      | some (sa, bw) => { s with gaps := s.gaps.insert sa bw }
      | none => s
    let defrag_pushed :=
      if 0 < space_left then
        some { offset := block_offset + s.storage_layout.data_size_block_min
                  + space_required,
               position := DefragPosition.TwoBlocks block_id right_block_id }
      else none
    let s := match defrag_pushed with
      | some t => { s with defrag_task_queue := ⟨t :: s.defrag_task_queue.queue⟩ }
      | none => s
    let task : WriteBlockTask :=
      { block_id := block_id, block_bytes := block_bytes,
        commit_type := .CommitOnly }
    (s, tasks_queue ++ [(block_offset, task)],
     .performed block_offset space_available (.StartAndBlock right_block)
       .CommitOnly gap_inserted defrag_pushed)
  | (gaps_after, .Success space_available (.TwoBlocks left_block right_block)) =>
    let block_offset := left_block.block_entry.offset
        + s.storage_layout.data_size_block_min
        + left_block.block_entry.header.block_size
    let right_block_id := right_block.block_id
    let s := { s with gaps := gaps_after }
    let s := { s with blocks_index := s.blocks_index.insert block_id
                        ⟨block_offset, .Regular block_id space_required⟩ }
    let space_left := space_available - space_required
    let gap_inserted :=
      if s.storage_layout.data_size_block_min ≤ space_left then
        some (space_left - s.storage_layout.data_size_block_min,
              GapBetween.TwoBlocks block_id right_block_id)
      else none
    let s := match gap_inserted with
      | some (sa, bw) => { s with gaps := s.gaps.insert sa bw }
      | none => s
    let defrag_pushed :=
      if 0 < space_left then
        some { offset := block_offset + s.storage_layout.data_size_block_min
                  + space_required,
               position := DefragPosition.TwoBlocks block_id right_block_id }
      else none
    let s := match defrag_pushed with
      | some t => { s with defrag_task_queue := ⟨t :: s.defrag_task_queue.queue⟩ }
      | none => s
    let task : WriteBlockTask :=
      { block_id := block_id, block_bytes := block_bytes,
        commit_type := .CommitOnly }
    (s, tasks_queue ++ [(block_offset, task)],
     .performed block_offset space_available
       (.TwoBlocks left_block right_block) .CommitOnly gap_inserted
       defrag_pushed)
  | (gaps_after, .Success space_available (.BlockAndEnd left_block)) =>
    let block_offset := left_block.block_entry.offset
    let left_block_id := left_block.block_id
    let s := { s with gaps := gaps_after }
    let s := { s with blocks_index := (s.blocks_index.remove left_block_id).1 }
    let s := { s with blocks_index := s.blocks_index.insert block_id
                        ⟨block_offset, .Regular block_id space_required⟩ }
    let eof_block_id := s.next_block_id
    let s := { s with next_block_id := s.next_block_id.next }
    let s := { s with blocks_index := s.blocks_index.insert eof_block_id
                        ⟨block_offset + space_required
                          + s.storage_layout.data_size_block_min, .EndOfFile⟩ }
    let space_left := space_available - space_required
    let gap_inserted :=
      if s.storage_layout.data_size_block_min ≤ space_left then
        some (space_left - s.storage_layout.data_size_block_min,
              GapBetween.BlockAndEnd eof_block_id)
      else none
    let s := match gap_inserted with
      | some (sa, bw) => { s with gaps := s.gaps.insert sa bw }
      | none => s
    let task : WriteBlockTask :=
      { block_id := block_id, block_bytes := block_bytes,
        commit_type := .CommitAndEof }
    (s, tasks_queue ++ [(block_offset, task)],
     .performed block_offset space_available (.BlockAndEnd left_block)
       .CommitAndEof gap_inserted none)
  | (gaps_after, .PendingDefragmentation) =>
    let task : WriteBlockTask :=
      { block_id := block_id, block_bytes := block_bytes,
        commit_type := .CommitOnly }
    ({ s with gaps := gaps_after,
              defrag_pending_queue := s.defrag_pending_queue ++ [task] },
     tasks_queue, .pending)
  | (gaps_after, .NoSpaceLeft) =>
    ({ s with gaps := gaps_after }, tasks_queue, .noSpaceLeftReply)

/-! ### The CRC oracle (src/block.rs `crc`)

`block::crc` delegates to the external `crc` crate's CRC-64/ECMA checksum; the
spec treats it as "a CRC oracle".  It is modelled by a concrete bitwise
CRC-64/ECMA-182 (polynomial 0x42F0E1EBA9EA3693, init 0, xorout 0); the claims
below depend only on it being a deterministic function of the payload. -/

def crcPoly : Nat := 0x42F0E1EBA9EA3693

def crcStep (c : Nat) : Nat :=
  if 2 ^ 63 ≤ c then ((c * 2) ^^^ crcPoly) % 2 ^ 64 else (c * 2) % 2 ^ 64

def crcByte (c b : Nat) : Nat :=
  crcStep^[8] ((c ^^^ ((b % 256) * 2 ^ 56)) % 2 ^ 64)

/-- `block::crc(bytes)` (src/block.rs lines 31-33). -/
def crc (bytes : List Nat) : Nat := bytes.foldl crcByte 0

/-! ### Read-frame validation (src/wheel/interpret/fixed_file.rs `block_process_job`)

The on-disk bytes read for a block are `BlockHeader || payload || CommitTag`;
`block_process_job` deserializes the header from the first
`block_header_size` bytes and the commit tag from the last `commit_tag_size`
bytes (bincode, an external crate) and validates them against the expected
header.  The buffer is modelled by its deserialized view `BlockFrame`. -/

/-- The new-core `storage::BlockHeader` struct: `{ block_id, block_size }`
(the constant `magic` field, never inspected by `block_process_job`, is
omitted). -/
structure StorageBlockHeader where
  block_id : BlockId
  block_size : Nat
deriving DecidableEq, Repr

/-- `storage::CommitTag`: `{ block_id, crc }` (again without the constant
magic). -/
structure CommitTag where
  block_id : BlockId
  crc : Nat
deriving DecidableEq, Repr

/-- The deserialized view of the bytes handed to `block_process_job`:
the on-disk block header, the payload slice
`block_bytes[block_header_size .. len - commit_tag_size]`, and the trailing
commit tag. -/
structure BlockFrame where
  storage_block_header : StorageBlockHeader
  payload : List Nat
  commit_tag : CommitTag
deriving DecidableEq, Repr

/-- `CorruptedDataError` (src/wheel/interpret/fixed_file.rs lines 89-112). -/
inductive CorruptedDataError where
  | BlockIdMismatch (offset : Nat) (block_id_expected block_id_actual : BlockId)
  | BlockSizeMismatch (offset : Nat) (block_id : BlockId)
      (block_size_expected block_size_actual : Nat)
  | CommitTagBlockIdMismatch (offset : Nat)
      (block_id_expected block_id_actual : BlockId)
  | CommitTagCrcMismatch (offset : Nat) (crc_expected crc_actual : Nat)
deriving DecidableEq, Repr

/-- `BlockProcessJobDone` (src/wheel/interpret/fixed_file.rs lines 779-783). -/
structure BlockProcessJobDone where
  block_id : BlockId
  block_bytes : List Nat
  block_crc : Nat
deriving DecidableEq, Repr

/-- `block_process_job` (src/wheel/interpret/fixed_file.rs lines 792-847):
check the deserialized header's id and size against the expected header, the
commit tag's id against the expected id, and the payload's CRC against the
commit tag's crc; return the payload on success and the corresponding
`CorruptedData` error on the first mismatch. -/
def block_process_job (offset : Nat) (block_header : StorageBlockHeader)
    (frame : BlockFrame) : Except CorruptedDataError BlockProcessJobDone :=
  let sbh := frame.storage_block_header
  if sbh.block_id ≠ block_header.block_id then
    .error (.BlockIdMismatch offset block_header.block_id sbh.block_id)
  else if sbh.block_size ≠ block_header.block_size then
    .error (.BlockSizeMismatch offset block_header.block_id
      block_header.block_size sbh.block_size)
  else if frame.commit_tag.block_id ≠ block_header.block_id then
    .error (.CommitTagBlockIdMismatch offset block_header.block_id
      frame.commit_tag.block_id)
  else
    let crc_expected := crc frame.payload
    if frame.commit_tag.crc ≠ crc_expected then
      .error (.CommitTagCrcMismatch offset crc_expected frame.commit_tag.crc)
    else
      .ok ⟨block_header.block_id, frame.payload, frame.commit_tag.crc⟩

/-! ### Well-formedness predicates and concrete fixtures -/

/-- Every id in the block index is strictly below `next_block_id` — ids are
handed out by `next()` and never reused, so live ids always trail the
counter. -/
def IdsBelow (s : Schema) : Prop :=
  ∀ p ∈ s.blocks_index.kvs, (p : BlockId × BlockEntry).1.serial
    < s.next_block_id.serial

instance (s : Schema) : Decidable (IdsBelow s) :=
  List.decidableBAll _ _

/-- Every stored gap is shaped as in spec §3/§4.1: the right endpoint of a
`StartAndBlock` or `TwoBlocks` gap resolves to a regular block, the left
endpoint of a `TwoBlocks` gap resolves, and the left endpoint of a
`BlockAndEnd` gap resolves to the end-of-file sentinel. -/
def GapsWF (s : Schema) : Prop :=
  ∀ g ∈ s.gaps.gaps,
    match (g : Nat × GapBetween BlockId).2 with
    | .StartAndBlock r =>
      ∃ e, s.blocks_index.get r = some e
        ∧ ∃ i n, e.header = BlockHeader.Regular i n
    | .TwoBlocks l r =>
      (∃ e, s.blocks_index.get l = some e)
      ∧ ∃ e, s.blocks_index.get r = some e
        ∧ ∃ i n, e.header = BlockHeader.Regular i n
    | .BlockAndEnd l =>
      ∃ e, s.blocks_index.get l = some e ∧ e.header = BlockHeader.EndOfFile

/-- The number of live regular blocks in the index. -/
def countRegular (s : Schema) : Nat :=
  s.blocks_index.kvs.countP (fun p =>
    match p.2.header with
    | .Regular _ _ => true
    | .EndOfFile => false)

/-- The 13 bytes of the spec §8 payload "hello, world!". -/
def helloWorldBytes : List Nat :=
  [104, 101, 108, 108, 111, 44, 32, 119, 111, 114, 108, 100, 33]

/-- The spec §8 layout: wheel_header 24, block_header 20, commit_tag 16,
eof_tag 4 (as in the schema unit test, src/wheel/schema.rs `tests::init`). -/
def testLayout : Layout := ⟨24, 4, 20, 16⟩

/-- A fresh 160-byte wheel under the §8 layout (spec §8 scenario table). -/
def schemaFresh160 : Schema := (Schema.new testLayout).initialize_empty 160

/-- A schema holding two regular blocks with a 20-byte `TwoBlocks` gap between
them (block 0 at offset 24 with 5 payload bytes, gap of 20 payload bytes
occupying 56 bytes, block 1 at offset 121), as arises after a middle-block
deletion. -/
def schemaTwoBlocksExample : Schema :=
  { next_block_id := ⟨2⟩
    storage_layout := testLayout
    blocks_index := ⟨[(⟨0⟩, ⟨24, .Regular ⟨0⟩ 5⟩), (⟨1⟩, ⟨121, .Regular ⟨1⟩ 5⟩)]⟩
    gaps := ⟨[(20, .TwoBlocks ⟨0⟩ ⟨1⟩)]⟩
    defrag_pending_queue := []
    defrag_task_queue := DefragTaskQueue.new }

/-- The right neighbor named by a consumed gap: present for `StartAndBlock`
and `TwoBlocks` gaps, absent for a `BlockAndEnd` gap (whose right end is the
end of the data region). -/
def rightRef : GapBetween GapRef → Option GapRef
  | .StartAndBlock r => some r
  | .TwoBlocks _ r => some r
  | .BlockAndEnd _ => none

/-! ### Canonical shape of reachable schema states

Starting from `initialize_empty`, the only gap the old-revision schema ever
holds is the single `BlockAndEnd` gap after the end-of-file sentinel (the
schema has no delete path, and `TwoBlocks`/`StartAndBlock` gaps are only ever
created out of existing ones).  A reachable state is therefore a run of
regular blocks packed from `wheel_header_size`, the sentinel, and at most one
trailing gap. -/

/-- Place a run of `(id, size)` regular blocks at cumulative offsets starting
at `off`: each block is followed by `data_size_block_min` bytes of overhead. -/
def placeAll (l : Layout) (off : Nat) :
    List (BlockId × Nat) → List (BlockId × BlockEntry)
  | [] => []
  | (i, sz) :: rest =>
    (i, ⟨off, .Regular i sz⟩) :: placeAll l (off + l.data_size_block_min + sz) rest

/-- The offset just past a run of regular blocks placed at `off`. -/
def endOffset (l : Layout) (off : Nat) : List (BlockId × Nat) → Nat
  | [] => off
  | (_, sz) :: rest => endOffset l (off + l.data_size_block_min + sz) rest

/-- The canonical index contents of a reachable state: the packed run of
regular blocks followed by the end-of-file sentinel. -/
def canonKvs (l : Layout) (regs : List (BlockId × Nat)) (eofId : BlockId) :
    List (BlockId × BlockEntry) :=
  placeAll l l.wheel_header_size regs
    ++ [(eofId, ⟨endOffset l l.wheel_header_size regs, .EndOfFile⟩)]

/-- Well-formedness of a reachable schema state: the index is a canonical run
plus sentinel, ids ascend and trail `next_block_id`, and the gap index holds
at most the single trailing `BlockAndEnd` gap. -/
def SchemaWF (s : Schema) : Prop :=
  ∃ (regs : List (BlockId × Nat)) (eofId : BlockId) (gap : Option Nat),
    s.blocks_index.kvs = canonKvs s.storage_layout regs eofId
    ∧ List.Pairwise (fun a b => a.1.serial < b.1.serial) regs
    ∧ (∀ p ∈ regs, (p : BlockId × Nat).1.serial < eofId.serial)
    ∧ eofId.serial < s.next_block_id.serial
    ∧ s.gaps.gaps = (match gap with
        | some a => [(a, GapBetween.BlockAndEnd eofId)]
        | none => [])
    ∧ 0 < s.storage_layout.data_size_block_min

/-- Schema states reachable by the transitions the old-revision schema has:
initialization of an empty wheel, and write requests (the layout is assumed to
have nonzero per-block overhead, as any real layout does). -/
inductive SchemaReach : Schema → Prop where
  | init (layout : Layout) (size : Nat)
      (hmin : 0 < layout.data_size_block_min) :
      SchemaReach ((Schema.new layout).initialize_empty size)
  | write (s : Schema) (bytes : List Nat) (tq : List (Nat × WriteBlockTask)) :
      SchemaReach s → SchemaReach (s.process_write_block_request bytes tq).1

/-- The entries of the block index (values only). -/
def entryList (s : Schema) : List BlockEntry := s.blocks_index.kvs.map Prod.snd

/-- `b` is the right neighbor of `a` in the block index: both are entries,
`b` lies at a higher offset, and no entry lies strictly between them. -/
def rightNeighbor (s : Schema) (a b : BlockEntry) : Prop :=
  a ∈ entryList s ∧ b ∈ entryList s ∧ a.offset < b.offset
  ∧ ∀ c ∈ entryList s, ¬(a.offset < c.offset ∧ c.offset < b.offset)

instance (s : Schema) (a b : BlockEntry) : Decidable (rightNeighbor s a b) := by
  unfold rightNeighbor
  exact instDecidableAnd

/-- Consecutive entries step by `data_size_block_min` plus the left entry's
payload size. -/
def stepChain (l : Layout) : List BlockEntry → Prop
  | [] => True
  | [_] => True
  | a :: b :: rest =>
    b.offset = a.offset + l.data_size_block_min + a.header.block_size
    ∧ stepChain l (b :: rest)

/-! ## The new-core performer (src/wheel/core/performer.rs)

The performer's data structures (`wheel/core/schema.rs`, `wheel/core/task`,
`wheel/core/gaps`, `wheel/core/defrag.rs`, `wheel/lru.rs`) are not in the
source tree; they are modelled from spec §3–§4.5 below.  The performer state
machine itself is transcribed from src/wheel/core/performer.rs.  Byte buffers
are modelled by `Nat` tokens; for a write request the token is the payload
length (the only property the core inspects).  Every `panic!`, `unreachable!`,
`assert!` and `unwrap` of the performer is transcribed as the explicit
`COp.Panic` outcome. -/

/-- A generic finite map keyed by block id (duplicate-free association list;
insertion replaces), the shape shared by the core block index, the per-block
task FIFOs and the LRU cache (spec §4.2, §4.4, §3). -/
structure CMap (β : Type) where
  kvs : List (BlockId × β)
deriving DecidableEq, Repr

def CMap.empty {β : Type} : CMap β := ⟨[]⟩

def CMap.get {β : Type} (m : CMap β) (k : BlockId) : Option β :=
  (m.kvs.find? (fun p => p.1 == k)).map Prod.snd

def CMap.insert {β : Type} (m : CMap β) (k : BlockId) (v : β) : CMap β :=
  ⟨(k, v) :: m.kvs.filter (fun p => ¬ p.1 = k)⟩

def CMap.remove {β : Type} (m : CMap β) (k : BlockId) : CMap β :=
  ⟨m.kvs.filter (fun p => ¬ p.1 = k)⟩

/-- The new-core block index entry: offset plus the on-disk header
`{ block_id, block_size }` (the new core keeps no end-of-file sentinel entry;
cf. the performer test script, src/wheel/core/performer/tests/basic.rs, where
the first write receives id 0 at offset 24). -/
structure CoreBlockEntry where
  offset : Nat
  header : StorageBlockHeader
deriving DecidableEq, Repr

/-- Modelled from the spec (§3): gaps of the new core.  `StartAndEnd` is the
full-span gap of an empty wheel ("one full-span gap" at init, §3 Lifecycles);
in the sentinel-less core a `BlockAndEnd` gap trails its left (regular)
block. -/
inductive CoreGap (B : Type) where
  | StartAndBlock (right_block : B)
  | TwoBlocks (left_block : B) (right_block : B)
  | BlockAndEnd (left_block : B)
  | StartAndEnd
deriving DecidableEq, Repr

structure CoreGaps where
  gaps : List (Nat × CoreGap BlockId)
deriving DecidableEq, Repr

def CoreGaps.insert (g : CoreGaps) (space_available : Nat)
    (between : CoreGap BlockId) : CoreGaps :=
  ⟨g.gaps ++ [(space_available, between)]⟩

def CoreGaps.space_total (g : CoreGaps) : Nat :=
  (g.gaps.map Prod.fst).sum

def coreResolve (blocks : CMap CoreBlockEntry) :
    CoreGap BlockId → Option (CoreGap (BlockId × CoreBlockEntry))
  | .StartAndBlock r => (blocks.get r).map (fun e => .StartAndBlock (r, e))
  | .TwoBlocks l r =>
    match blocks.get l, blocks.get r with
    | some el, some er => some (.TwoBlocks (l, el) (r, er))
    | _, _ => none
  | .BlockAndEnd l => (blocks.get l).map (fun e => .BlockAndEnd (l, e))
  | .StartAndEnd => some .StartAndEnd

inductive CoreAllocated where
  | Success (space_available : Nat)
      (between : CoreGap (BlockId × CoreBlockEntry))
  | PendingDefragmentation
  | NoSpaceLeft
deriving DecidableEq, Repr

def coreBestFit (space_required : Nat) (blocks : CMap CoreBlockEntry) :
    List (Nat × CoreGap BlockId) →
      Option (Nat × CoreGap BlockId × CoreGap (BlockId × CoreBlockEntry))
  | [] => none
  | (sa, bw) :: rest =>
    let tail := coreBestFit space_required blocks rest
    if space_required ≤ sa then
      match coreResolve blocks bw with
      | some res =>
        match tail with
        | none => some (sa, bw, res)
        | some (sa', bw', res') =>
          if sa ≤ sa' then some (sa, bw, res) else some (sa', bw', res')
      | none => tail
    else tail

def coreRemoveFirstGap (x : Nat × CoreGap BlockId) :
    List (Nat × CoreGap BlockId) → List (Nat × CoreGap BlockId)
  | [] => []
  | g :: rest => if g = x then rest else g :: coreRemoveFirstGap x rest

/-- Modelled from the spec (§4.1): best-fit allocation in the core gap index;
`PendingDefragmentation` when no single gap fits but the aggregate does,
`NoSpaceLeft` otherwise. -/
def CoreGaps.allocate (g : CoreGaps) (space_required : Nat)
    (blocks : CMap CoreBlockEntry) : CoreGaps × CoreAllocated :=
  match coreBestFit space_required blocks g.gaps with
  | some (sa, bw, res) =>
    (⟨coreRemoveFirstGap (sa, bw) g.gaps⟩, .Success sa res)
  | none =>
    if space_required ≤ g.space_total then (g, .PendingDefragmentation)
    else (g, .NoSpaceLeft)

/-- A gap key: the spec keys gaps by `(size, serial)`; only the size is ever
read back (`space_available()`, used by `flush_defrag_pending_queue`). -/
structure SpaceKey where
  space_available : Nat
deriving DecidableEq, Repr

/-- Modelled from the spec (§3, §9): the defrag witness names the gap pair
whose coalescence is pursued.  Only its validity re-check is consulted by the
performer; relevance is modelled as liveness of the moving block in the index
(the spec's finer adjacency re-check needs the gap identities, which the
absent module owns). -/
structure DefragGaps where
  left_gap : SpaceKey
  right_gap : SpaceKey
deriving DecidableEq, Repr

def DefragGaps.is_still_relevant (_g : DefragGaps) (block_id : BlockId)
    (blocks : CMap CoreBlockEntry) : Bool :=
  (blocks.get block_id).isSome

inductive DefragOp where
  | None
  | Queue (defrag_gaps : DefragGaps) (moving_block_id : BlockId)
deriving DecidableEq, Repr

inductive CoreWriteBlockOp where
  | Perform (defrag_op : DefragOp) (block_id : BlockId) (block_offset : Nat)
      (right_space_key : Option SpaceKey)
  | QueuePendingDefrag (space_required : Nat)
  | ReplyNoSpaceLeft
deriving DecidableEq, Repr

/-- The new-core schema state (modelled from spec §4.3). -/
structure CoreSchema where
  next_block_id : BlockId
  storage_layout : Layout
  blocks_index : CMap CoreBlockEntry
  gaps : CoreGaps
  wheel_size_bytes : Nat
deriving Repr, DecidableEq

/-- Modelled from the spec (§4.3 placement rules, adapted to the sentinel-less
core index): offset of a new block placed into a resolved gap. -/
def corePlacementOffset (l : Layout) :
    CoreGap (BlockId × CoreBlockEntry) → Nat
  | .StartAndBlock _ => l.wheel_header_size
  | .TwoBlocks lb _ =>
    lb.2.offset + l.data_size_block_min + lb.2.header.block_size
  | .BlockAndEnd lb =>
    lb.2.offset + l.data_size_block_min + lb.2.header.block_size
  | .StartAndEnd => l.wheel_header_size

/-- The gap left over to the right of a fresh block placed into `between`. -/
def coreRemainderGap (block_id : BlockId) :
    CoreGap (BlockId × CoreBlockEntry) → CoreGap BlockId
  | .StartAndBlock r => .TwoBlocks block_id r.1
  | .TwoBlocks _ r => .TwoBlocks block_id r.1
  | .BlockAndEnd _ => .BlockAndEnd block_id
  | .StartAndEnd => .BlockAndEnd block_id

def coreRightNeighbor :
    CoreGap (BlockId × CoreBlockEntry) → Option BlockId
  | .StartAndBlock r => some r.1
  | .TwoBlocks _ r => some r.1
  | .BlockAndEnd _ => none
  | .StartAndEnd => none

/-- Modelled from the spec (§4.3, with the disabled-defragmentation behaviour
fixed by §8: with no defrag queues a write that fits no single gap reports
`NoSpaceLeft`): plan a write of `block_bytes` payload bytes given the pending
defrag byte counter (`none` when defragmentation is disabled). -/
def CoreSchema.process_write_block_request (s : CoreSchema)
    (block_bytes : Nat) (defrag_pending_bytes : Option Nat) :
    CoreSchema × CoreWriteBlockOp :=
  let block_id := s.next_block_id
  let space_required := block_bytes
  match s.gaps.allocate space_required s.blocks_index with
  | (gaps_after, .Success space_available between) =>
    let block_offset := corePlacementOffset s.storage_layout between
    let s1 := { s with next_block_id := s.next_block_id.next,
                       gaps := gaps_after }
    let s1 := { s1 with blocks_index := s1.blocks_index.insert block_id
                          ⟨block_offset, ⟨block_id, space_required⟩⟩ }
    let space_left := space_available - space_required
    if s.storage_layout.data_size_block_min ≤ space_left then
      let gap_space := space_left - s.storage_layout.data_size_block_min
      let s2 := { s1 with gaps := s1.gaps.insert gap_space
                            (coreRemainderGap block_id between) }
      let defrag_op := match coreRightNeighbor between with
        | some rid => DefragOp.Queue ⟨⟨gap_space⟩, ⟨0⟩⟩ rid
        | none => DefragOp.None
      (s2, .Perform defrag_op block_id block_offset (some ⟨gap_space⟩))
    else
      (s1, .Perform DefragOp.None block_id block_offset none)
  | (_, .PendingDefragmentation) =>
    match defrag_pending_bytes with
    | some _ => (s, .QueuePendingDefrag space_required)
    | none => (s, .ReplyNoSpaceLeft)
  | (_, .NoSpaceLeft) =>
    if s.gaps.space_total < defrag_pending_bytes.getD 0 + space_required then
      (s, .ReplyNoSpaceLeft)
    else (s, .QueuePendingDefrag space_required)

inductive CoreReadBlockOp where
  | Perform (block_header : StorageBlockHeader)
  | NotFound
deriving DecidableEq, Repr

/-- `process_read_block_request` (spec §4.3): index lookup only. -/
def CoreSchema.process_read_block_request (s : CoreSchema) (block_id : BlockId) :
    CoreReadBlockOp :=
  match s.blocks_index.get block_id with
  | some e => .Perform e.header
  | none => .NotFound

inductive CoreDeleteBlockOp where
  | Perform
  | NotFound
deriving DecidableEq, Repr

/-- `process_delete_block_request` (spec §4.3): validates presence; state
changes only at task completion. -/
def CoreSchema.process_delete_block_request (s : CoreSchema)
    (block_id : BlockId) : CoreDeleteBlockOp :=
  match s.blocks_index.get block_id with
  | some _ => .Perform
  | none => .NotFound

/-- The gaps of the index that touch `block_id` on their right or left. -/
def coreLeftFlank (block_id : BlockId) (gaps : List (Nat × CoreGap BlockId)) :
    Option (Nat × CoreGap BlockId) :=
  gaps.find? (fun g =>
    match g.2 with
    | .StartAndBlock r => r == block_id
    | .TwoBlocks _ r => r == block_id
    | _ => false)

def coreRightFlank (block_id : BlockId) (gaps : List (Nat × CoreGap BlockId)) :
    Option (Nat × CoreGap BlockId) :=
  gaps.find? (fun g =>
    match g.2 with
    | .TwoBlocks l _ => l == block_id
    | .BlockAndEnd l => l == block_id
    | _ => false)

def coreGapTouches (block_id : BlockId) (g : Nat × CoreGap BlockId) : Bool :=
  match g.2 with
  | .StartAndBlock r => r == block_id
  | .TwoBlocks l r => l == block_id || r == block_id
  | .BlockAndEnd l => l == block_id
  | .StartAndEnd => false

/-- The block (if any) with the greatest offset strictly below `off`. -/
def corePrevBlock (blocks : CMap CoreBlockEntry) (off : Nat) :
    Option BlockId :=
  blocks.kvs.foldl (fun acc p =>
    if p.2.offset < off then
      match acc with
      | none => some p.1
      | some b =>
        match blocks.get b with
        | some eb => if eb.offset < p.2.offset then some p.1 else acc
        | none => some p.1
    else acc) none

/-- The block (if any) with the least offset strictly above `off`. -/
def coreNextBlock (blocks : CMap CoreBlockEntry) (off : Nat) :
    Option BlockId :=
  blocks.kvs.foldl (fun acc p =>
    if off < p.2.offset then
      match acc with
      | none => some p.1
      | some b =>
        match blocks.get b with
        | some eb => if p.2.offset < eb.offset then some p.1 else acc
        | none => some p.1
    else acc) none

/-- The merged gap covering a deleted block plus its flanking gaps, described
by its neighbors: left side (`none` = start of data region) and right side
(`none` = end of data region). -/
def coreMergedGap (left_side right_side : Option BlockId) : CoreGap BlockId :=
  match left_side, right_side with
  | none, some r => .StartAndBlock r
  | some l, some r => .TwoBlocks l r
  | some l, none => .BlockAndEnd l
  | none, none => .StartAndEnd

structure CoreDeleteDone where
  defrag_op : DefragOp
  block_entry : CoreBlockEntry
  freed_space_key : SpaceKey
deriving DecidableEq, Repr

/-- Modelled from the spec (§4.3 `process_delete_block_task_done`): remove the
entry, merge the flanking gaps plus the freed footprint into one gap keyed by
`freed_space_key`, and queue the right neighbor for relocation when it is a
block.  Returns `none` when the id is not in the index (the source's single
`Perform` variant makes that case a protocol violation). -/
def CoreSchema.process_delete_block_task_done (s : CoreSchema)
    (block_id : BlockId) : Option (CoreSchema × CoreDeleteDone) :=
  match s.blocks_index.get block_id with
  | none => none
  | some e =>
    let blocks := s.blocks_index.remove block_id
    let lflank := coreLeftFlank block_id s.gaps.gaps
    let rflank := coreRightFlank block_id s.gaps.gaps
    let lspace := (lflank.map Prod.fst).getD 0
    let rspace := (rflank.map Prod.fst).getD 0
    let overhead := (if lflank.isSome then
        s.storage_layout.data_size_block_min else 0)
      + (if rflank.isSome then s.storage_layout.data_size_block_min else 0)
    let merged := lspace + rspace + e.header.block_size + overhead
    let left_side := match lflank with
      | some (_, .StartAndBlock _) => (none : Option BlockId)
      | some (_, .TwoBlocks l _) => some l
      | _ => corePrevBlock blocks e.offset
    let right_side := match rflank with
      | some (_, .TwoBlocks _ r) => some r
      | some (_, .BlockAndEnd _) => (none : Option BlockId)
      | _ => coreNextBlock blocks e.offset
    let right_side := match rflank with
      | some (_, .BlockAndEnd _) => none
      | _ => right_side
    let gaps2 : CoreGaps :=
      ⟨(s.gaps.gaps.filter (fun g => ¬ coreGapTouches block_id g = true))
        ++ [(merged, coreMergedGap left_side right_side)]⟩
    let defrag_op := match right_side with
      | some r => DefragOp.Queue ⟨⟨merged⟩, ⟨0⟩⟩ r
      | none => DefragOp.None
    some ({ s with blocks_index := blocks, gaps := gaps2 },
      { defrag_op := defrag_op, block_entry := e,
        freed_space_key := ⟨merged⟩ })

structure CoreDeleteDoneDefrag where
  defrag_op : DefragOp
  freed_space_key : SpaceKey
deriving DecidableEq, Repr

/-- Modelled from the spec (§4.3 `process_delete_block_task_done_defrag`):
like the regular delete completion, but the freed region is immediately
reconsumed by the relocation rewrite — the block entry is re-placed at the
left edge of the merged gap and the remainder becomes the new gap.  Returns
`none` when the id is not in the index. -/
def CoreSchema.process_delete_block_task_done_defrag (s : CoreSchema)
    (block_id : BlockId) : Option (CoreSchema × CoreDeleteDoneDefrag) :=
  match s.process_delete_block_task_done block_id with
  | none => none
  | some (s1, done) =>
    let e := done.block_entry
    let merged := done.freed_space_key.space_available
    let mergedGapEntry := s1.gaps.gaps.getLast?
    let left_side : Option BlockId := match mergedGapEntry with
      | some (_, .TwoBlocks l _) => some l
      | some (_, .BlockAndEnd l) => some l
      | _ => none
    let new_offset := match left_side.bind (fun l => s1.blocks_index.get l) with
      | some le => le.offset + s.storage_layout.data_size_block_min
          + le.header.block_size
      | none => s.storage_layout.wheel_header_size
    let s2 := { s1 with blocks_index := s1.blocks_index.insert block_id
                          ⟨new_offset, e.header⟩ }
    let gaps3 : CoreGaps :=
      ⟨s2.gaps.gaps.dropLast⟩
    let space_left := merged - e.header.block_size
    if s.storage_layout.data_size_block_min ≤ space_left then
      let gap_space := space_left - s.storage_layout.data_size_block_min
      let right_side := match mergedGapEntry with
        | some (_, .StartAndBlock r) => some r
        | some (_, .TwoBlocks _ r) => some r
        | _ => none
      let newGap := match right_side with
        | some r => CoreGap.TwoBlocks block_id r
        | none => CoreGap.BlockAndEnd block_id
      let s3 := { s2 with gaps := ⟨gaps3.gaps ++ [(gap_space, newGap)]⟩ }
      let defrag_op := match right_side with
        | some r => DefragOp.Queue ⟨⟨gap_space⟩, ⟨0⟩⟩ r
        | none => DefragOp.None
      some (s3, { defrag_op := defrag_op, freed_space_key := ⟨gap_space⟩ })
    else
      some ({ s2 with gaps := gaps3 },
        { defrag_op := DefragOp.None, freed_space_key := ⟨0⟩ })

/-- `next_block_id_from` (spec §4.2): the smallest live id ≥ `from`. -/
def CoreSchema.next_block_id_from (s : CoreSchema) (from_id : BlockId) :
    Option BlockId :=
  s.blocks_index.kvs.foldl (fun acc p =>
    if from_id.serial ≤ p.1.serial then
      match acc with
      | none => some p.1
      | some b => if p.1.serial < b.serial then some p.1 else acc
    else acc) none

structure CoreInfo where
  blocks_count : Nat
  wheel_size_bytes : Nat
  service_bytes_used : Nat
  data_bytes_used : Nat
  defrag_write_pending_bytes : Nat
  bytes_free : Nat
deriving DecidableEq, Repr

/-- `info()` (spec §4.3; figures as in the performer test
src/wheel/core/performer/tests/basic.rs: service bytes are the wheel header
plus per-block overhead). -/
def CoreSchema.info (s : CoreSchema) : CoreInfo :=
  let blocks_count := s.blocks_index.kvs.length
  let service_bytes_used := s.storage_layout.wheel_header_size
    + blocks_count * s.storage_layout.data_size_block_min
  let data_bytes_used :=
    (s.blocks_index.kvs.map (fun p => p.2.header.block_size)).sum
  { blocks_count := blocks_count
    wheel_size_bytes := s.wheel_size_bytes
    service_bytes_used := service_bytes_used
    data_bytes_used := data_bytes_used
    defrag_write_pending_bytes := 0
    bytes_free := s.wheel_size_bytes - service_bytes_used - data_bytes_used }

/-! ### The per-block task queue (spec §4.4; module not in the source tree)

A per-block FIFO of pending task kinds plus an in-flight marker (per-block
serialization: at most one task of a block is at the interpreter).  The
trigger set is derived: a block is triggered when it has pending tasks, none
in flight, and resolves in the index; `lens.enqueue` is therefore the
identity in this model. -/

inductive WriteBlockCtx where
  | External (context : Nat)
  | Defrag
deriving DecidableEq, Repr

inductive ReadBlockCtx where
  | External (context : Nat)
  | Defrag (defrag_gaps : DefragGaps)
  | IterBlocks (iter_blocks_stream_context : Nat) (next_block_id : BlockId)
deriving DecidableEq, Repr

inductive DeleteBlockCtx where
  | External (context : Nat)
  | Defrag (defrag_gaps : DefragGaps) (block_bytes : Nat) (block_crc : Nat)
deriving DecidableEq, Repr

inductive CoreTaskKind where
  | WriteBlock (block_bytes : Nat) (block_crc : Option Nat)
      (context : WriteBlockCtx)
  | ReadBlock (block_header : StorageBlockHeader) (block_bytes : Nat)
      (context : ReadBlockCtx)
  | DeleteBlock (context : DeleteBlockCtx)
deriving DecidableEq, Repr

structure Fifo where
  pending : List CoreTaskKind
  head_in_flight : Bool
deriving DecidableEq, Repr

structure TasksQueue where
  fifos : CMap Fifo
  flush_queue : List Nat
deriving DecidableEq, Repr

def TasksQueue.empty : TasksQueue := ⟨CMap.empty, []⟩

def TasksQueue.fifoOf (tq : TasksQueue) (block_id : BlockId) : Fifo :=
  (tq.fifos.get block_id).getD ⟨[], false⟩

def TasksQueue.push_task (tq : TasksQueue) (block_id : BlockId)
    (task : CoreTaskKind) : TasksQueue :=
  let f := tq.fifoOf block_id
  { tq with fifos := tq.fifos.insert block_id
                ⟨f.pending ++ [task], f.head_in_flight⟩ }

/-- Remove and return the first write task still queued for the block. -/
def popWriteTask : List CoreTaskKind →
    Option ((Nat × Option Nat × WriteBlockCtx) × List CoreTaskKind)
  | [] => none
  | .WriteBlock b c ctx :: rest => some ((b, c, ctx), rest)
  | t :: rest => (popWriteTask rest).map (fun x => (x.1, t :: x.2))

def popReadTask : List CoreTaskKind →
    Option ((StorageBlockHeader × Nat × ReadBlockCtx) × List CoreTaskKind)
  | [] => none
  | .ReadBlock h b ctx :: rest => some ((h, b, ctx), rest)
  | t :: rest => (popReadTask rest).map (fun x => (x.1, t :: x.2))

def popDeleteTask : List CoreTaskKind →
    Option (DeleteBlockCtx × List CoreTaskKind)
  | [] => none
  | .DeleteBlock ctx :: rest => some (ctx, rest)
  | t :: rest => (popDeleteTask rest).map (fun x => (x.1, t :: x.2))

def TasksQueue.setPending (tq : TasksQueue) (block_id : BlockId)
    (pending : List CoreTaskKind) : TasksQueue :=
  let f := tq.fifoOf block_id
  { tq with fifos := tq.fifos.insert block_id ⟨pending, f.head_in_flight⟩ }

/-- `pop_task`: take the FIFO head for dispatch, marking it in flight. -/
def TasksQueue.pop_task (tq : TasksQueue) (block_id : BlockId) :
    Option (CoreTaskKind × TasksQueue) :=
  let f := tq.fifoOf block_id
  match f.pending with
  | [] => none
  | t :: rest =>
    some (t, { tq with fifos := tq.fifos.insert block_id ⟨rest, true⟩ })

/-- `finish`: the dispatched task of the block has completed. -/
def TasksQueue.finish (tq : TasksQueue) (block_id : BlockId) : TasksQueue :=
  let f := tq.fifoOf block_id
  { tq with fifos := tq.fifos.insert block_id ⟨f.pending, false⟩ }

def TasksQueue.push_flush (tq : TasksQueue) (context : Nat) : TasksQueue :=
  { tq with flush_queue := tq.flush_queue ++ [context] }

def TasksQueue.pop_flush (tq : TasksQueue) : Option (Nat × TasksQueue) :=
  match tq.flush_queue with
  | [] => none
  | c :: rest => some (c, { tq with flush_queue := rest })

/-- `is_empty_tasks`: no pending task and nothing in flight anywhere. -/
def TasksQueue.is_empty_tasks (tq : TasksQueue) : Bool :=
  tq.fifos.kvs.all (fun p => p.2.pending.isEmpty && !p.2.head_in_flight)

/-- Blocks eligible for dispatch: pending work, nothing in flight, and a
resolvable offset. -/
def triggerCandidates (tq : TasksQueue) (blocks : CMap CoreBlockEntry) :
    List (Nat × BlockId) :=
  tq.fifos.kvs.filterMap (fun p =>
    if ¬ p.2.pending.isEmpty ∧ p.2.head_in_flight = false then
      (blocks.get p.1).map (fun e => (e.offset, p.1))
    else none)

def pickMinFst : List (Nat × BlockId) → Option (Nat × BlockId)
  | [] => none
  | c :: rest =>
    match pickMinFst rest with
    | none => some c
    | some m => if c.1 ≤ m.1 then some c else some m

/-- `next_trigger(current_offset)` (spec §4.4): the triggered block with the
smallest offset ≥ `current_offset`, wrapping to the smallest offset overall
when none lies ahead (the elevator). -/
def TasksQueue.next_trigger (tq : TasksQueue) (current_offset : Nat)
    (blocks : CMap CoreBlockEntry) : Option (Nat × BlockId) :=
  let cands := triggerCandidates tq blocks
  match pickMinFst (cands.filter (fun c => current_offset ≤ c.1)) with
  | some c => some c
  | none => pickMinFst cands

/-! ### Defragmentation queues of the new core (spec §3, §4.5; module not in
the source tree) -/

structure PendingItem where
  context : Nat
  block_bytes : Nat
deriving DecidableEq, Repr

structure CoreDefrag where
  pending : List PendingItem
  pending_bytes : Nat
  tasks : List (DefragGaps × BlockId)
  in_progress_tasks_count : Nat
  in_progress_tasks_limit : Nat
deriving DecidableEq, Repr

/-- Push a deferred write and account its bytes (spec §3: "tagged with
required byte count and an aggregate pending_bytes counter"). -/
def CoreDefrag.pendingPush (d : CoreDefrag) (item : PendingItem)
    (space_required : Nat) : CoreDefrag :=
  { d with pending := d.pending ++ [item],
           pending_bytes := d.pending_bytes + space_required }

/-- `pop_at_most(space)` with the spec §9 greedy front-of-queue policy: pop
the head if it fits the freed space, else leave the queue alone. -/
def CoreDefrag.pendingPopAtMost (d : CoreDefrag) (space : Nat) :
    Option (PendingItem × CoreDefrag) :=
  match d.pending with
  | [] => none
  | item :: rest =>
    if item.block_bytes ≤ space then
      some (item, { d with pending := rest,
                           pending_bytes := d.pending_bytes - item.block_bytes })
    else none

/-- Pop the next relocation candidate whose moving block is still live,
dropping stale entries (spec §4.5: invalidated witnesses are dropped). -/
def defragTasksPop (blocks : CMap CoreBlockEntry) :
    List (DefragGaps × BlockId) →
      Option ((DefragGaps × BlockId) × List (DefragGaps × BlockId))
  | [] => none
  | t :: rest =>
    if (blocks.get t.2).isSome then some (t, rest)
    else defragTasksPop blocks rest

/-! ### The performer state (src/wheel/core/performer.rs) -/

inductive CoreDoneTask where
  | None
  | ReadBlock (block_id : BlockId) (block_bytes : Nat) (block_crc : Nat)
  | DeleteBlockRegular (block_id : BlockId) (block_entry : CoreBlockEntry)
      (freed_space_key : SpaceKey)
  | DeleteBlockDefrag (block_id : BlockId) (block_bytes : Nat)
      (block_crc : Nat) (freed_space_key : SpaceKey)
deriving DecidableEq, Repr

inductive BgState where
  | Idle
  | InProgress (block_id : BlockId) (interpreter_context : Nat)
  | Await (block_id : BlockId)
deriving DecidableEq, Repr

structure Inner where
  schema : CoreSchema
  lru_cache : CMap Nat
  defrag : Option CoreDefrag
  bg_current_offset : Nat
  bg_state : BgState
  tasks_queue : TasksQueue
  done_task : CoreDoneTask
deriving Repr, DecidableEq

inductive Request where
  | Info (context : Nat)
  | Flush (context : Nat)
  | WriteBlock (block_bytes : Nat) (block_crc : Option Nat) (context : Nat)
  | ReadBlock (block_id : BlockId) (context : Nat)
  | DeleteBlock (block_id : BlockId) (context : Nat)
  | IterBlocks (context : Nat)
deriving DecidableEq, Repr

inductive PEvent where
  | InfoSuccess (context : Nat) (info : CoreInfo)
  | FlushFlushed (context : Nat)
  | WriteBlockNoSpaceLeft (context : Nat)
  | WriteBlockDone (context : Nat) (block_id : BlockId)
  | ReadBlockNotFound (context : Nat)
  | ReadBlockDone (context : Nat) (block_bytes : Nat)
  | DeleteBlockNotFound (context : Nat)
  | DeleteBlockDone (context : Nat) (block_id : BlockId)
  | IterBlocksItem (iter_blocks_stream_context : Nat) (block_id : BlockId)
      (block_bytes : Nat) (next_block_id : BlockId)
  | IterBlocksFinish (iter_blocks_stream_context : Nat)
deriving DecidableEq, Repr

/-- The performer's returned operation (`Op`/`QueryOp`/`Event` of
src/wheel/core/performer.rs).  `Panic` transcribes every `panic!`,
`unreachable!`, `assert!` and `unwrap` of the source. -/
inductive COp where
  | Idle (performer : Inner)
  | PollRequestAndInterpreter (interpreter_context : Nat) (next : Inner)
  | PollRequest (next : Inner)
  | InterpretTask (offset : Nat) (block_id : BlockId)
      (task_kind : CoreTaskKind) (next : Inner)
  | MakeIterBlocksStream (iter_blocks_context : Nat)
      (blocks_total_count : Nat) (blocks_total_size : Nat) (next : Inner)
  | Event (op : PEvent) (performer : Inner)
  | Panic (reason : String)
deriving DecidableEq, Repr

inductive TaskDoneKind where
  | WriteBlock (context : WriteBlockCtx)
  | ReadBlock (block_bytes : Nat) (block_crc : Nat) (context : ReadBlockCtx)
  | DeleteBlock (context : DeleteBlockCtx)
deriving DecidableEq, Repr

structure TaskDone where
  current_offset : Nat
  block_id : BlockId
  kind : TaskDoneKind
deriving DecidableEq, Repr

/-- `cancel_defrag_task` (src/wheel/core/performer.rs lines 1111-1114):
assert the in-progress counter is positive and decrement it; `none` models
the assertion failure. -/
def cancelDefragTask (d : CoreDefrag) : Option CoreDefrag :=
  if 0 < d.in_progress_tasks_count then
    some { d with in_progress_tasks_count := d.in_progress_tasks_count - 1 }
  else none

/-- Apply `cancel_defrag_task` `n` times; `none` models the `unwrap` on a
disabled defrag state or the counter assertion failing. -/
def applyCancels (defrag : Option CoreDefrag) : Nat → Option (Option CoreDefrag)
  | 0 => some defrag
  | n + 1 =>
    match defrag with
    | none => none
    | some d =>
      match cancelDefragTask d with
      | none => none
      | some d' => applyCancels (some d') n

/-- Push a schema `DefragOp` onto the defrag tasks queue (performer sites
src/wheel/core/performer.rs lines 815-822, 838-845, 1086-1093). -/
def pushDefragOp (defrag : Option CoreDefrag) (op : DefragOp) :
    Option CoreDefrag :=
  match defrag, op with
  | some d, .Queue g mid => some { d with tasks := d.tasks ++ [(g, mid)] }
  | _, _ => defrag

def isWriteTask : CoreTaskKind → Bool
  | .WriteBlock _ _ _ => true
  | _ => false

/-- The `DoneTask::DeleteBlockRegular` write-drain
(src/wheel/core/performer.rs lines 459-468): every write task still queued on
the deleted id is popped; a defrag write is cancelled, an external write is
the source's `unreachable!` (`none`). -/
def drainWrites : List CoreTaskKind → Option (Nat × List CoreTaskKind)
  | [] => some (0, [])
  | .WriteBlock _ _ (.External _) :: _ => none
  | .WriteBlock _ _ .Defrag :: rest =>
    (drainWrites rest).map (fun x => (x.1 + 1, x.2))
  | t :: rest => (drainWrites rest).map (fun x => (x.1, t :: x.2))

inductive ReadWaiter where
  | External (context : Nat)
  | Iter (iter_blocks_stream_context : Nat) (next_block_id : BlockId)
deriving DecidableEq, Repr

/-- The `DoneTask::DeleteBlockRegular` read-drain
(src/wheel/core/performer.rs lines 469-494): pop read tasks in order; defrag
reads are cancelled, the first external or iterator read stops the loop. -/
def drainReads : List CoreTaskKind →
    Nat × List CoreTaskKind × Option ReadWaiter
  | [] => (0, [], none)
  | .ReadBlock _ _ (.Defrag _) :: rest =>
    let x := drainReads rest
    (x.1 + 1, x.2)
  | .ReadBlock _ _ (.External c) :: rest => (0, rest, some (.External c))
  | .ReadBlock _ _ (.IterBlocks s nid) :: rest => (0, rest, some (.Iter s nid))
  | t :: rest =>
    let x := drainReads rest
    (x.1, t :: x.2.1, x.2.2)

/-- The `DoneTask::DeleteBlockRegular` delete-drain
(src/wheel/core/performer.rs lines 495-516): defrag deletes are cancelled, the
first external delete waiter stops the loop with `NotFound`. -/
def drainDeletes : List CoreTaskKind →
    Nat × List CoreTaskKind × Option Nat
  | [] => (0, [], none)
  | .DeleteBlock (.Defrag _ _ _) :: rest =>
    let x := drainDeletes rest
    (x.1 + 1, x.2)
  | .DeleteBlock (.External c) :: rest => (0, rest, some c)
  | t :: rest =>
    let x := drainDeletes rest
    (x.1, t :: x.2.1, x.2.2)

/-- `flush_defrag_pending_queue` (src/wheel/core/performer.rs lines 993-1026):
while the freed gap fits the pending head, pop it and re-plan it through the
schema, chaining into each placement's right gap; a `QueuePendingDefrag`
outcome re-queues the write and stops; a `ReplyNoSpaceLeft` outcome is the
source's `unreachable!` (`none`). -/
def flushLoop (schema : CoreSchema) (tq : TasksQueue) (pending_bytes : Nat)
    (tasks : List (DefragGaps × BlockId)) (key : Option SpaceKey) :
    List PendingItem →
      Option (CoreSchema × TasksQueue × List PendingItem × Nat
        × List (DefragGaps × BlockId))
  | [] => some (schema, tq, [], pending_bytes, tasks)
  | item :: rest =>
    match key with
    | none => some (schema, tq, item :: rest, pending_bytes, tasks)
    | some k =>
      if item.block_bytes ≤ k.space_available then
        let pb := pending_bytes - item.block_bytes
        match schema.process_write_block_request item.block_bytes (some pb) with
        | (schema', .Perform defrag_op block_id _block_offset right_key) =>
          let tasks' := match defrag_op with
            | .Queue g mid => tasks ++ [(g, mid)]
            | .None => tasks
          let tq' := tq.push_task block_id
            (.WriteBlock item.block_bytes none (.External item.context))
          flushLoop schema' tq' pb tasks' right_key rest
        | (schema', .QueuePendingDefrag space_required) =>
          some (schema', tq, rest ++ [item], pb + space_required, tasks)
        | (_, .ReplyNoSpaceLeft) => none
      else some (schema, tq, item :: rest, pending_bytes, tasks)

/-- `Inner::flush_defrag_pending_queue` over the whole performer state. -/
def Inner.flush_defrag_pending_queue (i : Inner)
    (maybe_space_key : Option SpaceKey) : Option Inner :=
  match i.defrag with
  | none => some i
  | some d =>
    match flushLoop i.schema i.tasks_queue d.pending_bytes d.tasks
        maybe_space_key d.pending with
    | none => none
    | some (schema', tq', pending', pb', tasks') =>
      let d' : CoreDefrag :=
        { d with pending := pending', pending_bytes := pb', tasks := tasks' }
      some { i with schema := schema', tasks_queue := tq', defrag := some d' }

/-- Step 2 of `next()` (src/wheel/core/performer.rs lines 535-562): while the
in-progress budget allows, pop relocation candidates (dropping stale ones)
and queue a defrag-context read for each. -/
def enqueueDefragReads (blocks : CMap CoreBlockEntry) (limit : Nat) :
    TasksQueue → Nat → List (DefragGaps × BlockId) →
      TasksQueue × Nat × List (DefragGaps × BlockId)
  | tq, count, [] => (tq, count, [])
  | tq, count, t :: rest =>
    if limit ≤ count then (tq, count, t :: rest)
    else
      match blocks.get t.2 with
      | some e =>
        enqueueDefragReads blocks limit
          (tq.push_task t.2 (.ReadBlock e.header 0 (.Defrag t.1)))
          (count + 1) rest
      | none => enqueueDefragReads blocks limit tq count rest

def totalTasks (tq : TasksQueue) : Nat :=
  (tq.fifos.kvs.map (fun p => p.2.pending.length)).sum

def sum_len_filter_le (q : BlockId × Fifo → Bool) :
    ∀ l : List (BlockId × Fifo),
      ((l.filter q).map (fun p => p.2.pending.length)).sum ≤
        (l.map (fun p => p.2.pending.length)).sum := by
  intro l
  induction l with
  | nil => exact Nat.le_refl _
  | cons p rest ih =>
    rw [List.filter_cons]
    by_cases hq : q p = true
    · simp only [hq, if_pos]
      simp only [List.map_cons, List.sum_cons]
      omega
    · simp only [hq, Bool.false_eq_true, if_false, List.map_cons,
        List.sum_cons]
      omega

def cmap_get_sum (k : BlockId) (f : Fifo) :
    ∀ l : List (BlockId × Fifo),
      (CMap.get ⟨l⟩ k = some f) →
      f.pending.length +
        ((l.filter (fun p => ¬ p.1 = k)).map
          (fun p => p.2.pending.length)).sum ≤
        (l.map (fun p => p.2.pending.length)).sum := by
  intro l
  induction l with
  | nil => intro h; simp [CMap.get, List.find?] at h
  | cons p rest ih =>
    intro h
    by_cases hp : p.1 = k
    · have hpk : (p.1 == k) = true := by simp [hp]
      have hf : p.2 = f := by
        simp only [CMap.get, List.find?, hpk, Option.map_some'] at h
        exact Option.some.inj h
      subst hf
      rw [List.filter_cons]
      have hd : (decide ¬p.1 = k) = false := by simp [hp]
      rw [hd]
      simp only [Bool.false_eq_true, if_false, List.map_cons, List.sum_cons]
      have := sum_len_filter_le (fun p => decide ¬ p.1 = k) rest
      omega
    · have hpk : (p.1 == k) = false := by simp [hp]
      have h2 : CMap.get ⟨rest⟩ k = some f := by
        simp only [CMap.get, List.find?, hpk] at h ⊢
        exact h
      have := ih h2
      rw [List.filter_cons]
      have hd : (decide ¬p.1 = k) = true := by simp [hp]
      rw [hd, if_pos rfl]
      simp only [List.map_cons, List.sum_cons]
      omega

def totalTasks_pop_finish (tq : TasksQueue) (id : BlockId)
    (t : CoreTaskKind) (tq1 : TasksQueue)
    (h : tq.pop_task id = some (t, tq1)) :
    totalTasks (tq1.finish id) < totalTasks tq := by
  unfold TasksQueue.pop_task at h
  simp only at h
  rcases hf : (tq.fifoOf id).pending with _ | ⟨t0, rest⟩
  · rw [hf] at h; exact Option.noConfusion h
  · rw [hf] at h
    simp only [Option.some.injEq, Prod.mk.injEq] at h
    obtain ⟨-, h2⟩ := h
    subst h2
    have hgetins : ∀ (m : CMap Fifo) (v : Fifo), CMap.get (m.insert id v) id
        = some v := by
      intro m v
      simp [CMap.get, CMap.insert, List.find?]
    have hfilterins : ∀ (m : CMap Fifo) (v : Fifo),
        (m.insert id v).kvs.filter (fun p => ¬ p.1 = id) =
          m.kvs.filter (fun p => ¬ p.1 = id) := by
      intro m v
      show ((id, v) :: m.kvs.filter (fun p => ¬ p.1 = id)).filter
          (fun p => ¬ p.1 = id) = m.kvs.filter (fun p => ¬ p.1 = id)
      rw [List.filter_cons]
      have h1 : (decide ¬ (id, v).1 = id) = false := by simp
      rw [h1]
      simp only [Bool.false_eq_true, if_false]
      rw [List.filter_filter]
      apply List.filter_congr
      intro p hp
      simp only [Bool.and_self]
    have hsumins : ∀ (m : CMap Fifo) (v : Fifo),
        (((m.insert id v).kvs).map (fun p => p.2.pending.length)).sum =
          v.pending.length +
            ((m.kvs.filter (fun p => ¬ p.1 = id)).map
              (fun p => p.2.pending.length)).sum := by
      intro m v
      show (((id, v) :: m.kvs.filter (fun p => ¬ p.1 = id)).map
          (fun p => p.2.pending.length)).sum = _
      rw [List.map_cons, List.sum_cons]
    have hfin : totalTasks
        (TasksQueue.finish
          { tq with fifos := tq.fifos.insert id ⟨rest, true⟩ } id) =
        rest.length +
          ((tq.fifos.kvs.filter (fun p => ¬ p.1 = id)).map
            (fun p => p.2.pending.length)).sum := by
      unfold TasksQueue.finish TasksQueue.fifoOf totalTasks
      simp only [hgetins, Option.getD_some]
      rw [hsumins]
      simp only [hfilterins]
    rw [hfin]
    unfold TasksQueue.fifoOf at hf
    cases hg : (tq.fifos.get id) with
    | none =>
      rw [hg] at hf
      simp only [Option.getD_none] at hf
      exact absurd hf (by simp)
    | some f0 =>
      rw [hg] at hf
      simp only [Option.getD_some] at hf
      have hsum := cmap_get_sum id f0 tq.fifos.kvs hg
      have hlen : f0.pending.length = rest.length + 1 := by
        rw [hf]; simp
      unfold totalTasks
      omega

/-- The result of the background-dispatch loop
(`maybe_run_background_task`, src/wheel/core/performer.rs lines 1028-1072). -/
inductive BgResult where
  | NoTrigger
  | Dispatch (offset : Nat) (block_id : BlockId) (task : CoreTaskKind)
      (tq : TasksQueue) (defrag : Option CoreDefrag)
  | Fail (reason : String)

/-- `maybe_run_background_task`'s trigger loop: pop the next triggered task;
a stale defrag delete is cancelled and the loop continues; anything else is
dispatched.  The `Fail` cases transcribe the source's `panic!` (empty task
queue), the `unwrap` of a disabled defrag state and the counter assertion. -/
def bgLoopFuel (schema : CoreSchema) : Nat → Nat → Option CoreDefrag →
    TasksQueue → BgResult
  | 0, _, _, _ => .Fail "fuel exhausted"
  | fuel + 1, current_offset, defrag, tq =>
    match tq.next_trigger current_offset schema.blocks_index with
    | none => .NoTrigger
    | some (offset, id) =>
      match tq.pop_task id with
      | none => .Fail "empty task queue unexpected"
      | some (task, tq1) =>
        match task with
        | .DeleteBlock (.Defrag gaps _ _) =>
          if gaps.is_still_relevant id schema.blocks_index then
            .Dispatch offset id task tq1 defrag
          else
            match defrag with
            | none => .Fail "defrag state unwrap"
            | some d =>
              match cancelDefragTask d with
              | none => .Fail "in_progress_tasks_count assertion"
              | some d' =>
                bgLoopFuel schema fuel current_offset (some d') (tq1.finish id)
        | _ => .Dispatch offset id task tq1 defrag

/-- The trigger loop at its natural fuel: every continuing iteration pops and
finishes one queued task, so `totalTasks` strictly decreases
(`totalTasks_pop_finish`) and `totalTasks tq + 1` rounds dominate the loop —
the fuel-exhausted branch is unreachable at this bound. -/
def bgLoop (schema : CoreSchema) (current_offset : Nat)
    (defrag : Option CoreDefrag) (tq : TasksQueue) : BgResult :=
  bgLoopFuel schema (totalTasks tq + 1) current_offset defrag tq

/-- Step 4 of `next()` (src/wheel/core/performer.rs lines 573-587): hand the
background slot over — `Idle` runs `maybe_run_background_task`, `InProgress`
parks in `Await` and polls both channels, `Await` is the source's
`unreachable!`. -/
def Inner.bgDispatch (i : Inner) : COp :=
  match i.bg_state with
  | .Idle =>
    match bgLoop i.schema i.bg_current_offset i.defrag i.tasks_queue with
    | .NoTrigger => .PollRequest { i with bg_state := .Idle }
    | .Dispatch offset id task tq' defrag' =>
      .InterpretTask offset id task
        { i with tasks_queue := tq', defrag := defrag',
                 bg_state := .Await id }
    | .Fail reason => .Panic reason
  | .InProgress block_id interpreter_context =>
    .PollRequestAndInterpreter interpreter_context
      { i with bg_state := .Await block_id }
  | .Await _ => .Panic "poke in Await state"

/-- The quiescence test guarding `Flush{Flushed}` emission
(src/wheel/core/performer.rs line 564). -/
def Inner.quiescent (i : Inner) : Bool :=
  i.tasks_queue.is_empty_tasks
    && (match i.defrag with
      | none => true
      | some d => d.in_progress_tasks_count == 0)

/-- Steps 2–4 of `next()` (src/wheel/core/performer.rs lines 535-587): enqueue
defrag reads up to the budget, emit `Flush{Flushed}` at quiescence, then
dispatch the background slot. -/
def Inner.pokeRest (i : Inner) : COp :=
  let i := match i.defrag with
    | some d =>
      let r := enqueueDefragReads i.schema.blocks_index
        d.in_progress_tasks_limit i.tasks_queue d.in_progress_tasks_count
        d.tasks
      { i with tasks_queue := r.1,
               defrag := some { d with in_progress_tasks_count := r.2.1,
                                       tasks := r.2.2 } }
    | none => i
  if i.quiescent then
    match i.tasks_queue.pop_flush with
    | some (context, tq') =>
      .Event (.FlushFlushed context) { i with tasks_queue := tq' }
    | none => i.bgDispatch
  else i.bgDispatch

/-- `iter_blocks_stream_next` (src/wheel/core/performer.rs lines 877-931). -/
def Inner.iter_blocks_stream_next (i : Inner) (block_id_from : BlockId)
    (iter_blocks_stream_context : Nat) : COp :=
  match i.schema.next_block_id_from block_id_from with
  | none => .Event (.IterBlocksFinish iter_blocks_stream_context) i
  | some block_id =>
    match i.schema.process_read_block_request block_id with
    | .Perform block_header =>
      match i.lru_cache.get block_id with
      | some block_bytes =>
        .Event (.IterBlocksItem iter_blocks_stream_context block_id
          block_bytes block_id.next) i
      | none =>
        let tq' := i.tasks_queue.push_task block_id
          (.ReadBlock block_header 0
            (.IterBlocks iter_blocks_stream_context block_id.next))
        .Idle { i with tasks_queue := tq' }
    | .NotFound => .Panic "iter read NotFound unreachable"

/-- `proceed_read_block_task_done` (src/wheel/core/performer.rs lines
933-991). -/
def Inner.proceed_read_block_task_done (i : Inner) (block_id : BlockId)
    (block_bytes : Nat) (block_crc : Nat) (task_context : ReadBlockCtx) :
    COp :=
  match task_context with
  | .External context => .Event (.ReadBlockDone context block_bytes) i
  | .Defrag defrag_gaps =>
    match i.schema.blocks_index.get block_id with
    | none => .Panic "block entry unwrap"
    | some _ =>
      if defrag_gaps.is_still_relevant block_id i.schema.blocks_index then
        let tq' := i.tasks_queue.push_task block_id
          (.DeleteBlock (.Defrag defrag_gaps block_bytes block_crc))
        .Idle { i with tasks_queue := tq' }
      else
        match i.defrag with
        | none => .Panic "defrag state unwrap"
        | some d =>
          match cancelDefragTask d with
          | none => .Panic "in_progress_tasks_count assertion"
          | some d' => .Idle { i with defrag := some d' }
  | .IterBlocks iter_blocks_stream_context next_block_id =>
    .Event (.IterBlocksItem iter_blocks_stream_context block_id block_bytes
      next_block_id) i

/-- `Inner::incoming_poke` — the top of `next()`
(src/wheel/core/performer.rs lines 439-588): drain the staged done task, then
continue with `pokeRest`. -/
def Inner.incoming_poke (i : Inner) : COp :=
  match i.done_task with
  | .None => Inner.pokeRest { i with done_task := .None }
  | .ReadBlock block_id block_bytes block_crc =>
    let f := i.tasks_queue.fifoOf block_id
    if f.pending.any isWriteTask then
      .Panic "write task queued behind a completed read"
    else
      match popReadTask f.pending with
      | some ((_, _, context), rest) =>
        let i' := { i with
          tasks_queue := i.tasks_queue.setPending block_id rest,
          done_task := .ReadBlock block_id block_bytes block_crc }
        i'.proceed_read_block_task_done block_id block_bytes block_crc context
      | none => Inner.pokeRest { i with done_task := .None }
  | .DeleteBlockRegular block_id block_entry freed_space_key =>
    let f := i.tasks_queue.fifoOf block_id
    match drainWrites f.pending with
    | none => .Panic "external write task on deleted block"
    | some (wcancels, pending1) =>
      match applyCancels i.defrag wcancels with
      | none => .Panic "cancel_defrag_task"
      | some defrag1 =>
        let r := drainReads pending1
        match applyCancels defrag1 r.1 with
        | none => .Panic "cancel_defrag_task"
        | some defrag2 =>
          match r.2.2 with
          | some (.External context) =>
            let tq' := i.tasks_queue.setPending block_id r.2.1
            let dt := CoreDoneTask.DeleteBlockRegular block_id block_entry
              freed_space_key
            let i' :=
              { i with defrag := defrag2, tasks_queue := tq', done_task := dt }
            .Event (.ReadBlockNotFound context) i'
          | some (.Iter stream next_block_id) =>
            let tq' := i.tasks_queue.setPending block_id r.2.1
            let i' := { i with defrag := defrag2, tasks_queue := tq',
                               done_task := .None }
            Inner.iter_blocks_stream_next i' next_block_id stream
          | none =>
            let rd := drainDeletes r.2.1
            match applyCancels defrag2 rd.1 with
            | none => .Panic "cancel_defrag_task"
            | some defrag3 =>
              match rd.2.2 with
              | some context =>
                let tq' := i.tasks_queue.setPending block_id rd.2.1
                let dt := CoreDoneTask.DeleteBlockRegular block_id block_entry
                  freed_space_key
                let i' := { i with defrag := defrag3, tasks_queue := tq',
                                   done_task := dt }
                .Event (.DeleteBlockNotFound context) i'
              | none =>
                let tq' := i.tasks_queue.setPending block_id rd.2.1
                let i1 := { i with defrag := defrag3, tasks_queue := tq',
                                   done_task := .None }
                match i1.flush_defrag_pending_queue (some freed_space_key) with
                | none => .Panic "pending flush NoSpaceLeft unreachable"
                | some i2 => Inner.pokeRest i2
  | .DeleteBlockDefrag block_id block_bytes block_crc freed_space_key =>
    let f := i.tasks_queue.fifoOf block_id
    match popReadTask f.pending with
    | some ((_, _, context), rest) =>
      let i' := { i with
        tasks_queue := i.tasks_queue.setPending block_id rest,
        done_task := .DeleteBlockDefrag block_id block_bytes block_crc
          freed_space_key }
      i'.proceed_read_block_task_done block_id block_bytes block_crc context
    | none =>
      let i1 := { i with done_task := .None }
      match i1.flush_defrag_pending_queue (some freed_space_key) with
      | none => .Panic "pending flush NoSpaceLeft unreachable"
      | some i2 => Inner.pokeRest i2

/-! ### Request handling (src/wheel/core/performer.rs lines 590-761) -/

def Inner.incoming_request_info (i : Inner) (context : Nat) : COp :=
  let info := i.schema.info
  match i.defrag with
  | none => .Event (.InfoSuccess context info) i
  | some d =>
    if info.bytes_free < d.pending_bytes then
      .Panic "bytes_free >= defrag_write_pending_bytes assertion"
    else
      .Event (.InfoSuccess context
        { info with defrag_write_pending_bytes := d.pending_bytes,
                    bytes_free := info.bytes_free - d.pending_bytes }) i

def Inner.incoming_request_flush (i : Inner) (context : Nat) : COp :=
  .Idle { i with tasks_queue := i.tasks_queue.push_flush context }

def Inner.incoming_request_write_block (i : Inner) (block_bytes : Nat)
    (block_crc : Option Nat) (context : Nat) : COp :=
  let defrag_pending_bytes := i.defrag.map (fun d => d.pending_bytes)
  match i.schema.process_write_block_request block_bytes
      defrag_pending_bytes with
  | (schema', .Perform defrag_op block_id _block_offset _right_key) =>
    let tq' := i.tasks_queue.push_task block_id
      (.WriteBlock block_bytes block_crc (.External context))
    let defrag' := pushDefragOp i.defrag defrag_op
    .Idle { i with schema := schema', defrag := defrag', tasks_queue := tq' }
  | (schema', .QueuePendingDefrag space_required) =>
    let defrag' := i.defrag.map (fun d =>
      d.pendingPush ⟨context, block_bytes⟩ space_required)
    .Idle { i with schema := schema', defrag := defrag' }
  | (schema', .ReplyNoSpaceLeft) =>
    .Event (.WriteBlockNoSpaceLeft context) { i with schema := schema' }

def Inner.incoming_request_read_block (i : Inner) (block_id : BlockId)
    (context : Nat) : COp :=
  match i.schema.process_read_block_request block_id with
  | .Perform block_header =>
    match i.lru_cache.get block_id with
    | some block_bytes => .Event (.ReadBlockDone context block_bytes) i
    | none =>
      let tq' := i.tasks_queue.push_task block_id
        (.ReadBlock block_header 0 (.External context))
      .Idle { i with tasks_queue := tq' }
  | .NotFound => .Event (.ReadBlockNotFound context) i

def Inner.incoming_request_delete_block (i : Inner) (block_id : BlockId)
    (context : Nat) : COp :=
  match i.schema.process_delete_block_request block_id with
  | .Perform =>
    let tq' := i.tasks_queue.push_task block_id
      (.DeleteBlock (.External context))
    .Idle { i with tasks_queue := tq' }
  | .NotFound => .Event (.DeleteBlockNotFound context) i

def Inner.incoming_request_iter_blocks (i : Inner) (context : Nat) : COp :=
  let info := i.schema.info
  .MakeIterBlocksStream context info.blocks_count info.data_bytes_used i

def Inner.incoming_request (i : Inner) : Request → COp
  | .Info context => i.incoming_request_info context
  | .Flush context => i.incoming_request_flush context
  | .WriteBlock block_bytes block_crc context =>
    i.incoming_request_write_block block_bytes block_crc context
  | .ReadBlock block_id context =>
    i.incoming_request_read_block block_id context
  | .DeleteBlock block_id context =>
    i.incoming_request_delete_block block_id context
  | .IterBlocks context => i.incoming_request_iter_blocks context

/-! ### Interpreter completion handling (src/wheel/core/performer.rs lines
763-871) -/

def Inner.incoming_interpreter (i : Inner) (done : TaskDone) : COp :=
  let tqf := i.tasks_queue.finish done.block_id
  match done.kind with
  | .WriteBlock context =>
    let i1 := { i with bg_current_offset := done.current_offset,
                       bg_state := .Idle, tasks_queue := tqf }
    match context with
    | .External c => .Event (.WriteBlockDone c done.block_id) i1
    | .Defrag =>
      match i1.defrag with
      | none => .Panic "defrag state unwrap"
      | some d =>
        match cancelDefragTask d with
        | none => .Panic "in_progress_tasks_count assertion"
        | some d' => .Idle { i1 with defrag := some d' }
  | .ReadBlock block_bytes block_crc context =>
    let lru' := i.lru_cache.insert done.block_id block_bytes
    let dt := CoreDoneTask.ReadBlock done.block_id block_bytes block_crc
    let i1 := { i with bg_current_offset := done.current_offset,
                       bg_state := .Idle, tasks_queue := tqf,
                       lru_cache := lru', done_task := dt }
    i1.proceed_read_block_task_done done.block_id block_bytes block_crc
      context
  | .DeleteBlock context =>
    let i1 := { i with bg_current_offset := done.current_offset,
                       bg_state := .Idle, tasks_queue := tqf }
    match context with
    | .External c =>
      let i2 := { i1 with lru_cache := i1.lru_cache.remove done.block_id }
      match i2.schema.process_delete_block_task_done done.block_id with
      | none => .Panic "delete done on unknown block"
      | some (schema', dd) =>
        let dt := CoreDoneTask.DeleteBlockRegular done.block_id dd.block_entry
          dd.freed_space_key
        let defrag' := pushDefragOp i2.defrag dd.defrag_op
        let i3 := { i2 with schema := schema', defrag := defrag',
                            done_task := dt }
        .Event (.DeleteBlockDone c done.block_id) i3
    | .Defrag _defrag_gaps block_bytes block_crc =>
      match i1.schema.process_delete_block_task_done_defrag done.block_id with
      | none => .Panic "defrag delete done on unknown block"
      | some (schema', dd) =>
        let tq2 := i1.tasks_queue.push_task done.block_id
          (.WriteBlock block_bytes (some block_crc) .Defrag)
        let dt := CoreDoneTask.DeleteBlockDefrag done.block_id block_bytes
          block_crc dd.freed_space_key
        let defrag' := pushDefragOp i1.defrag dd.defrag_op
        let i3 := { i1 with schema := schema', defrag := defrag',
                            tasks_queue := tq2, done_task := dt }
        .Idle i3

/-! ### Entry points handed to the driver (src/wheel/core/performer.rs lines
315-396): the `Await → InProgress` transitions and their `unreachable!`
arms. -/

def Performer.next (i : Inner) : COp := i.incoming_poke

def PollRequestAndInterpreterNext.incoming_request (i : Inner)
    (request : Request) (interpreter_context : Nat) : COp :=
  match i.bg_state with
  | .Await block_id =>
    Inner.incoming_request
      { i with bg_state := .InProgress block_id interpreter_context } request
  | _ => .Panic "incoming_request outside Await"

def PollRequestAndInterpreterNext.incoming_task_done (i : Inner)
    (task_done : TaskDone) : COp :=
  i.incoming_interpreter task_done

def PollRequestAndInterpreterNext.incoming_iter_blocks (i : Inner)
    (cursor : BlockId) (iter_blocks_stream_context : Nat)
    (interpreter_context : Nat) : COp :=
  match i.bg_state with
  | .Await block_id =>
    Inner.iter_blocks_stream_next
      { i with bg_state := .InProgress block_id interpreter_context }
      cursor iter_blocks_stream_context
  | _ => .Panic "incoming_iter_blocks outside Await"

def PollRequestNext.incoming_request (i : Inner) (request : Request) : COp :=
  i.incoming_request request

def PollRequestNext.incoming_iter_blocks (i : Inner) (cursor : BlockId)
    (iter_blocks_stream_context : Nat) : COp :=
  i.iter_blocks_stream_next cursor iter_blocks_stream_context

def InterpretTaskNext.task_accepted (i : Inner)
    (interpreter_context : Nat) : Option Inner :=
  match i.bg_state with
  | .Await block_id =>
    some { i with bg_state := .InProgress block_id interpreter_context }
  | _ => none

def MakeIterBlocksStreamNext.stream_ready (i : Inner)
    (iter_blocks_stream_context : Nat) : COp :=
  i.iter_blocks_stream_next BlockId.init iter_blocks_stream_context

/-! ### Concrete performer states used by the examples -/

/-- An empty 160-byte wheel under the new core: no blocks, one full-span
gap of 136 free bytes behind the 24-byte wheel header. -/
def coreSchemaEmpty : CoreSchema :=
  ⟨⟨0⟩, testLayout, ⟨[]⟩, ⟨[(136, .StartAndEnd)]⟩, 160⟩

/-- A quiescent performer with one parked flush waiter (context 7). -/
def innerFlushReady : Inner :=
  ⟨coreSchemaEmpty, ⟨[]⟩, none, 24, .Idle, ⟨⟨[]⟩, [7]⟩, .None⟩

/-- `innerFlushReady` after the flush waiter is served. -/
def innerFlushDone : Inner :=
  ⟨coreSchemaEmpty, ⟨[]⟩, none, 24, .Idle, ⟨⟨[]⟩, []⟩, .None⟩

/-- A fragmented 160-byte wheel: blocks 0 and 1 live, gaps of 10 (between
them) and 8 (behind block 1) payload bytes. -/
def c2Schema : CoreSchema :=
  ⟨⟨2⟩, testLayout, ⟨[(⟨0⟩, ⟨24, ⟨⟨0⟩, 5⟩⟩), (⟨1⟩, ⟨75, ⟨⟨1⟩, 6⟩⟩)]⟩,
    ⟨[(10, .TwoBlocks ⟨0⟩ ⟨1⟩), (8, .BlockAndEnd ⟨1⟩)]⟩, 160⟩

/-- A defrag state with one pending write of 15 bytes already reserved. -/
def c2Defrag : CoreDefrag := ⟨[⟨3, 15⟩], 15, [], 0, 1⟩

/-- The fragmented wheel driven with defragmentation enabled. -/
def c2Inner : Inner :=
  ⟨c2Schema, ⟨[]⟩, some c2Defrag, 24, .Idle, TasksQueue.empty, .None⟩

/-- The fragmented wheel driven with defragmentation disabled. -/
def c2InnerNoDefrag : Inner :=
  ⟨c2Schema, ⟨[]⟩, none, 24, .Idle, TasksQueue.empty, .None⟩

/-- The deleted block id used by the delete-drain examples. -/
def c5X : BlockId := ⟨1⟩

/-- A schema in which block 1 has just been deleted (only block 0 lives). -/
def c5Schema : CoreSchema :=
  ⟨⟨2⟩, testLayout, ⟨[(⟨0⟩, ⟨24, ⟨⟨0⟩, 5⟩⟩)]⟩,
    ⟨[(95, .BlockAndEnd ⟨0⟩)]⟩, 160⟩

/-- The stale header of deleted block 1, as read tasks queued before the
delete still carry it. -/
def c5Header : StorageBlockHeader := ⟨⟨1⟩, 6⟩

/-- A performer that has just completed `DeleteBlock` for block 1 while an
iterator read and an external read (context 7) are still queued on it: the
staged `DeleteBlockRegular` drain meets the iterator read first. -/
def c5Inner : Inner :=
  ⟨c5Schema, ⟨[]⟩, none, 24, .Idle,
    ⟨⟨[(c5X, ⟨[.ReadBlock c5Header 0 (.IterBlocks 5 ⟨2⟩),
        .ReadBlock c5Header 0 (.External 7)], false⟩)]⟩, []⟩,
    .DeleteBlockRegular c5X ⟨65, c5Header⟩ ⟨95⟩⟩

/-- `c5Inner` after the poke: the drain was aborted by the iterator read,
the external read waiter is still queued and the staged done task is gone. -/
def c5InnerStuck : Inner :=
  ⟨c5Schema, ⟨[]⟩, none, 24, .Idle,
    ⟨⟨[(c5X, ⟨[.ReadBlock c5Header 0 (.External 7)], false⟩)]⟩, []⟩,
    .None⟩

/-- A defrag state with one relocation read in flight. -/
def c5Defrag1 : CoreDefrag := ⟨[], 0, [], 1, 1⟩

/-- A performer that has just completed `DeleteBlock` for block 1 while a
defrag-tagged read and an external read (context 7) are still queued on it. -/
def c5DrainInner : Inner :=
  ⟨c5Schema, ⟨[]⟩, some c5Defrag1, 24, .Idle,
    ⟨⟨[(c5X, ⟨[.ReadBlock c5Header 0 (.Defrag ⟨⟨95⟩, ⟨0⟩⟩),
        .ReadBlock c5Header 0 (.External 7)], false⟩)]⟩, []⟩,
    .DeleteBlockRegular c5X ⟨65, c5Header⟩ ⟨95⟩⟩

/-! ### Lemmas about the block index -/

theorem BlockId.eq_of_serial_eq {a b : BlockId} (h : a.serial = b.serial) :
    a = b := by
  cases a; cases b; cases h; rfl

theorem get_insertSorted_self (k : BlockId) (v : BlockEntry) :
    ∀ l : List (BlockId × BlockEntry),
      ((insertSorted k v l).find? (fun p => p.1 == k)).map Prod.snd = some v := by
  intro l
  induction l with
  | nil => simp [insertSorted, List.find?]
  | cons p rest ih =>
    simp only [insertSorted]
    by_cases h1 : k.serial < p.1.serial
    · simp [h1, List.find?]
    · by_cases h2 : k.serial = p.1.serial
      · simp [h1, h2, List.find?]
      · have hne : (p.1 == k) = false := by
          simp only [beq_eq_false_iff_ne, ne_eq]
          intro hk; rw [hk] at h2; exact h2 rfl
        simp only [h1, if_false, h2, List.find?, hne]
        exact ih

theorem Blocks.get_insert_self (m : Blocks) (k : BlockId) (v : BlockEntry) :
    (m.insert k v).get k = some v := by
  simp only [Blocks.insert, Blocks.get]
  exact get_insertSorted_self k v m.kvs

theorem get_insertSorted_ne (k k' : BlockId) (v : BlockEntry) (hne : k' ≠ k) :
    ∀ l : List (BlockId × BlockEntry),
      ((insertSorted k v l).find? (fun p => p.1 == k')).map Prod.snd =
        (l.find? (fun p => p.1 == k')).map Prod.snd := by
  intro l
  have hkk : (k == k') = false := by
    simp only [beq_eq_false_iff_ne, ne_eq]
    intro hk; exact hne hk.symm
  induction l with
  | nil => simp [insertSorted, List.find?, hkk]
  | cons p rest ih =>
    simp only [insertSorted]
    by_cases h1 : k.serial < p.1.serial
    · simp [h1, List.find?, hkk]
    · by_cases h2 : k.serial = p.1.serial
      · have hpk : p.1 = k := BlockId.eq_of_serial_eq h2.symm
        have hpk' : (p.1 == k') = false := by
          simp only [beq_eq_false_iff_ne, ne_eq, hpk]
          intro hk; exact hne hk.symm
        simp [h1, h2, List.find?, hkk, hpk']
      · simp only [h1, if_false, h2, List.find?]
        cases hp : (p.1 == k') with
        | true => simp
        | false => simpa using ih

theorem Blocks.get_insert_ne (m : Blocks) (k k' : BlockId) (v : BlockEntry)
    (hne : k' ≠ k) : (m.insert k v).get k' = m.get k' := by
  simp only [Blocks.insert, Blocks.get]
  exact get_insertSorted_ne k k' v hne m.kvs

theorem Blocks.get_remove_self (m : Blocks) (k : BlockId) :
    (m.remove k).1.get k = none := by
  simp only [Blocks.remove, Blocks.get]
  rw [List.find?_eq_none.mpr]
  · rfl
  · intro p hp
    have := (List.mem_filter.mp hp).2
    simp only [decide_not, Bool.not_eq_true', decide_eq_false_iff_not] at this
    simp [this]

theorem find?_filter_ne (k k' : BlockId) (hne : k' ≠ k) :
    ∀ l : List (BlockId × BlockEntry),
      (l.filter (fun p => ¬ p.1 = k)).find? (fun p => p.1 == k') =
        l.find? (fun p => p.1 == k') := by
  intro l
  induction l with
  | nil => rfl
  | cons p rest ih =>
    rw [List.filter_cons]
    by_cases hp : p.1 = k
    · have hd : (decide ¬p.1 = k) = false := by simp [hp]
      rw [hd]
      have hp' : (p.1 == k') = false := by
        rw [beq_eq_false_iff_ne, hp]
        exact fun hk => hne hk.symm
      simp only [Bool.false_eq_true, if_false]
      rw [ih]
      simp [List.find?_cons, hp']
    · have hd : (decide ¬p.1 = k) = true := by simp [hp]
      rw [hd, if_pos rfl]
      cases hq : (p.1 == k') with
      | true => simp [List.find?_cons, hq]
      | false => simp only [List.find?_cons, hq]; exact ih

theorem Blocks.get_remove_ne (m : Blocks) (k k' : BlockId) (hne : k' ≠ k) :
    (m.remove k).1.get k' = m.get k' := by
  simp only [Blocks.remove, Blocks.get]
  rw [find?_filter_ne k k' hne m.kvs]

theorem Blocks.mem_of_get_eq_some {m : Blocks} {k : BlockId} {v : BlockEntry}
    (h : m.get k = some v) : (k, v) ∈ m.kvs := by
  simp only [Blocks.get, Option.map_eq_some'] at h
  obtain ⟨p, hp, hv⟩ := h
  have hmem := List.mem_of_find?_eq_some hp
  have hpk := List.find?_some hp
  simp only [beq_iff_eq] at hpk
  have : p = (k, v) := by
    cases p with
    | mk a b => simp only at hpk hv; rw [hpk, hv]
  rw [← this]; exact hmem

theorem mem_insertSorted {p : BlockId × BlockEntry} {k : BlockId}
    {v : BlockEntry} : ∀ {l : List (BlockId × BlockEntry)},
    p ∈ insertSorted k v l → p = (k, v) ∨ p ∈ l := by
  intro l
  induction l with
  | nil =>
    intro h
    simp only [insertSorted] at h
    rcases List.mem_singleton.mp h with rfl
    exact Or.inl rfl
  | cons q rest ih =>
    intro h
    simp only [insertSorted] at h
    by_cases h1 : k.serial < q.1.serial
    · rw [if_pos h1] at h
      rcases List.mem_cons.mp h with rfl | h2
      · exact Or.inl rfl
      · exact Or.inr h2
    · rw [if_neg h1] at h
      by_cases h2 : k.serial = q.1.serial
      · rw [if_pos h2] at h
        rcases List.mem_cons.mp h with rfl | h3
        · exact Or.inl rfl
        · exact Or.inr (List.mem_cons_of_mem _ h3)
      · rw [if_neg h2] at h
        rcases List.mem_cons.mp h with rfl | h3
        · exact Or.inr (List.mem_cons_self _ _)
        · rcases ih h3 with h4 | h4
          · exact Or.inl h4
          · exact Or.inr (List.mem_cons_of_mem _ h4)

theorem idsBound_insert {m : Blocks} {n : Nat} {k : BlockId} {v : BlockEntry}
    (hm : ∀ p ∈ m.kvs, (p : BlockId × BlockEntry).1.serial < n)
    (hk : k.serial < n) :
    ∀ p ∈ (m.insert k v).kvs, (p : BlockId × BlockEntry).1.serial < n := by
  intro p hp
  rcases mem_insertSorted hp with rfl | hp2
  · exact hk
  · exact hm p hp2

theorem idsBound_remove {m : Blocks} {n : Nat} {k : BlockId}
    (hm : ∀ p ∈ m.kvs, (p : BlockId × BlockEntry).1.serial < n) :
    ∀ p ∈ (m.remove k).1.kvs, (p : BlockId × BlockEntry).1.serial < n :=
  fun p hp => hm p (List.mem_filter.mp hp).1

theorem Blocks.get_eq_none_of_bound {m : Blocks} {n : Nat} {k : BlockId}
    (hm : ∀ p ∈ m.kvs, (p : BlockId × BlockEntry).1.serial < n)
    (hk : n ≤ k.serial) : m.get k = none := by
  simp only [Blocks.get]
  rw [List.find?_eq_none.mpr]
  · rfl
  · intro p hp
    simp only [beq_iff_eq]
    intro he
    have := hm p hp
    rw [he] at this
    omega

/-! ### Lemmas about gap allocation -/

theorem bestFit_resolves {space_required : Nat} {blocks : Blocks} :
    ∀ {l : List (Nat × GapBetween BlockId)} {sa : Nat}
      {bw : GapBetween BlockId} {res : GapBetween GapRef},
      bestFit space_required blocks l = some (sa, bw, res) →
      resolveGap blocks bw = some res ∧ space_required ≤ sa := by
  intro l
  induction l with
  | nil => intro sa bw res h; simp [bestFit] at h
  | cons g rest ih =>
    intro sa bw res h
    obtain ⟨ga, gb⟩ := g
    simp only [bestFit] at h
    by_cases h1 : space_required ≤ ga
    · rw [if_pos h1] at h
      cases hres : resolveGap blocks gb with
      | none => rw [hres] at h; exact ih h
      | some r0 =>
        rw [hres] at h
        cases htail : bestFit space_required blocks rest with
        | none =>
          rw [htail] at h
          simp only [Option.some.injEq, Prod.mk.injEq] at h
          obtain ⟨rfl, rfl, rfl⟩ := h
          exact ⟨hres, h1⟩
        | some p =>
          obtain ⟨sa', bw', res'⟩ := p
          rw [htail] at h
          dsimp only at h
          by_cases h2 : ga ≤ sa'
          · rw [if_pos h2] at h
            simp only [Option.some.injEq, Prod.mk.injEq] at h
            obtain ⟨rfl, rfl, rfl⟩ := h
            exact ⟨hres, h1⟩
          · rw [if_neg h2] at h
            simp only [Option.some.injEq, Prod.mk.injEq] at h
            obtain ⟨rfl, rfl, rfl⟩ := h
            exact ih htail
    · rw [if_neg h1] at h
      exact ih h

theorem allocate_success_resolves {g : GapsIndex} {space_required : Nat}
    {blocks : Blocks} {g' : GapsIndex} {sa : Nat} {res : GapBetween GapRef}
    (h : g.allocate space_required blocks = (g', .Success sa res)) :
    (∃ bw, resolveGap blocks bw = some res) ∧ space_required ≤ sa := by
  simp only [GapsIndex.allocate] at h
  cases hb : bestFit space_required blocks g.gaps with
  | none =>
    rw [hb] at h
    by_cases hs : space_required ≤ g.space_total <;> simp [hs] at h
  | some p =>
    obtain ⟨sa0, bw0, res0⟩ := p
    rw [hb] at h
    simp only [Prod.mk.injEq, Allocated.Success.injEq] at h
    obtain ⟨-, h2⟩ := h
    have hr := bestFit_resolves hb
    cases h2
    exact ⟨⟨bw0, hr.1⟩, hr.2⟩

theorem bestFit_mem {space_required : Nat} {blocks : Blocks} :
    ∀ {l : List (Nat × GapBetween BlockId)} {sa : Nat}
      {bw : GapBetween BlockId} {res : GapBetween GapRef},
      bestFit space_required blocks l = some (sa, bw, res) → (sa, bw) ∈ l := by
  intro l
  induction l with
  | nil => intro sa bw res h; simp [bestFit] at h
  | cons g rest ih =>
    intro sa bw res h
    obtain ⟨ga, gb⟩ := g
    simp only [bestFit] at h
    by_cases h1 : space_required ≤ ga
    · rw [if_pos h1] at h
      cases hres : resolveGap blocks gb with
      | none => rw [hres] at h; exact List.mem_cons_of_mem _ (ih h)
      | some r0 =>
        rw [hres] at h
        cases htail : bestFit space_required blocks rest with
        | none =>
          rw [htail] at h
          simp only [Option.some.injEq, Prod.mk.injEq] at h
          obtain ⟨rfl, rfl, rfl⟩ := h
          exact List.mem_cons_self _ _
        | some p =>
          obtain ⟨sa', bw', res'⟩ := p
          rw [htail] at h
          dsimp only at h
          by_cases h2 : ga ≤ sa'
          · rw [if_pos h2] at h
            simp only [Option.some.injEq, Prod.mk.injEq] at h
            obtain ⟨rfl, rfl, rfl⟩ := h
            exact List.mem_cons_self _ _
          · rw [if_neg h2] at h
            simp only [Option.some.injEq, Prod.mk.injEq] at h
            obtain ⟨rfl, rfl, rfl⟩ := h
            exact List.mem_cons_of_mem _ (ih htail)
    · rw [if_neg h1] at h
      exact List.mem_cons_of_mem _ (ih h)

theorem allocate_success_mem {g : GapsIndex} {space_required : Nat}
    {blocks : Blocks} {g' : GapsIndex} {sa : Nat} {res : GapBetween GapRef}
    (h : g.allocate space_required blocks = (g', .Success sa res)) :
    ∃ bw, (sa, bw) ∈ g.gaps ∧ resolveGap blocks bw = some res := by
  simp only [GapsIndex.allocate] at h
  cases hb : bestFit space_required blocks g.gaps with
  | none =>
    rw [hb] at h
    by_cases hs : space_required ≤ g.space_total <;> simp [hs] at h
  | some p =>
    obtain ⟨sa0, bw0, res0⟩ := p
    rw [hb] at h
    simp only [Prod.mk.injEq, GapsOutcome.Success.injEq] at h
    obtain ⟨-, h2, h3⟩ := h
    subst h2; subst h3
    exact ⟨bw0, bestFit_mem hb, (bestFit_resolves hb).1⟩

theorem resolveGap_twoBlocks {blocks : Blocks} {bw : GapBetween BlockId}
    {l r : GapRef} (h : resolveGap blocks bw = some (.TwoBlocks l r)) :
    bw = .TwoBlocks l.block_id r.block_id
    ∧ blocks.get l.block_id = some l.block_entry
    ∧ blocks.get r.block_id = some r.block_entry := by
  cases bw with
  | StartAndBlock a =>
    simp only [resolveGap, Option.map_eq_some'] at h
    obtain ⟨e, -, he⟩ := h; cases he
  | TwoBlocks a b =>
    simp only [resolveGap] at h
    cases ha : blocks.get a <;> cases hb : blocks.get b <;> rw [ha, hb] at h
    · exact Option.noConfusion h
    · exact Option.noConfusion h
    · exact Option.noConfusion h
    · dsimp only at h
      simp only [Option.some.injEq, GapBetween.TwoBlocks.injEq] at h
      obtain ⟨h1, h2⟩ := h
      cases h1; cases h2
      exact ⟨rfl, ha, hb⟩
  | BlockAndEnd a =>
    simp only [resolveGap, Option.map_eq_some'] at h
    obtain ⟨e, -, he⟩ := h; cases he

theorem resolveGap_startAndBlock {blocks : Blocks} {bw : GapBetween BlockId}
    {r : GapRef} (h : resolveGap blocks bw = some (.StartAndBlock r)) :
    bw = .StartAndBlock r.block_id
    ∧ blocks.get r.block_id = some r.block_entry := by
  cases bw with
  | StartAndBlock a =>
    simp only [resolveGap, Option.map_eq_some'] at h
    obtain ⟨e, he, hr⟩ := h
    cases hr
    exact ⟨rfl, he⟩
  | TwoBlocks a b =>
    simp only [resolveGap] at h
    cases ha : blocks.get a <;> cases hb : blocks.get b <;>
      rw [ha, hb] at h <;> simp at h
  | BlockAndEnd a =>
    simp only [resolveGap, Option.map_eq_some'] at h
    obtain ⟨e, -, he⟩ := h; cases he

theorem resolveGap_blockAndEnd {blocks : Blocks} {bw : GapBetween BlockId}
    {l : GapRef} (h : resolveGap blocks bw = some (.BlockAndEnd l)) :
    bw = .BlockAndEnd l.block_id ∧ blocks.get l.block_id = some l.block_entry := by
  cases bw with
  | StartAndBlock r =>
    simp only [resolveGap, Option.map_eq_some'] at h
    obtain ⟨e, -, he⟩ := h; cases he
  | TwoBlocks a b =>
    simp only [resolveGap] at h
    cases ha : blocks.get a <;> cases hb : blocks.get b <;>
      rw [ha, hb] at h <;> simp at h
  | BlockAndEnd a =>
    simp only [resolveGap, Option.map_eq_some'] at h
    obtain ⟨e, he, hl⟩ := h
    cases hl
    exact ⟨rfl, he⟩

/-! ### Lemmas about the defrag heap -/

theorem DefragTask.cmp_eq_lt {t u : DefragTask} :
    DefragTask.cmp t u = Ordering.lt ↔ u.offset < t.offset := by
  simp [DefragTask.cmp, Nat.compare_eq_lt]

theorem DefragTask.cmp_eq_eq {t u : DefragTask} :
    DefragTask.cmp t u = Ordering.eq ↔ t.offset = u.offset := by
  simp [DefragTask.cmp, Nat.compare_eq_eq]
  exact eq_comm

theorem heapPop_eq_none {l : List DefragTask} : heapPop l = none ↔ l = [] := by
  cases l with
  | nil => simp [heapPop]
  | cons a l =>
    simp only [heapPop]
    cases hl : heapPop l with
    | none => simp
    | some p =>
      obtain ⟨m, others⟩ := p
      by_cases hc : DefragTask.cmp a m = Ordering.lt <;> simp [hc]

theorem heapPop_min : ∀ (l : List DefragTask) (t : DefragTask)
    (rest : List DefragTask), heapPop l = some (t, rest) →
    t ∈ l ∧ ∀ u ∈ l, t.offset ≤ u.offset := by
  intro l
  induction l with
  | nil => intro t rest h; simp [heapPop] at h
  | cons a l ih =>
    intro t rest h
    simp only [heapPop] at h
    cases hl : heapPop l with
    | none =>
      rw [hl] at h
      simp only [Option.some.injEq, Prod.mk.injEq] at h
      obtain ⟨rfl, rfl⟩ := h
      have hnil : l = [] := heapPop_eq_none.mp hl
      subst hnil
      refine ⟨List.mem_cons_self _ _, ?_⟩
      intro u hu
      rcases List.mem_cons.mp hu with rfl | hu
      · exact Nat.le_refl _
      · cases hu
    | some p =>
      obtain ⟨m, others⟩ := p
      rw [hl] at h
      dsimp only at h
      obtain ⟨hm_mem, hm_min⟩ := ih m others hl
      by_cases hc : DefragTask.cmp a m = Ordering.lt
      · rw [if_pos hc] at h
        simp only [Option.some.injEq, Prod.mk.injEq] at h
        obtain ⟨rfl, rfl⟩ := h
        refine ⟨List.mem_cons_of_mem _ hm_mem, ?_⟩
        intro u hu
        rcases List.mem_cons.mp hu with rfl | hu
        · exact Nat.le_of_lt (DefragTask.cmp_eq_lt.mp hc)
        · exact hm_min u hu
      · rw [if_neg hc] at h
        simp only [Option.some.injEq, Prod.mk.injEq] at h
        obtain ⟨rfl, rfl⟩ := h
        refine ⟨List.mem_cons_self _ _, ?_⟩
        intro u hu
        rcases List.mem_cons.mp hu with rfl | hu
        · exact Nat.le_refl _
        · have hma : a.offset ≤ m.offset := by
            have := mt DefragTask.cmp_eq_lt.mpr hc
            omega
          exact Nat.le_trans hma (hm_min u hu)

/-! ### Claim theorems: C9 and C10 -/

/-- C9.  Read-frame validation: `block_process_job` returns `Ok` with the
payload bytes exactly when the deserialized on-disk block header's id and size
equal the expected header's, the commit tag's id equals the expected id, and
the CRC of the payload equals the commit tag's crc; on a mismatch it returns
the corresponding fatal `CorruptedData` error (first failing check in source
order) and no read completion is produced. -/
theorem claim_C9 (offset : Nat) (bh : StorageBlockHeader) (frame : BlockFrame) :
    (block_process_job offset bh frame =
        .ok ⟨bh.block_id, frame.payload, frame.commit_tag.crc⟩ ↔
      (frame.storage_block_header.block_id = bh.block_id
        ∧ frame.storage_block_header.block_size = bh.block_size
        ∧ frame.commit_tag.block_id = bh.block_id
        ∧ crc frame.payload = frame.commit_tag.crc))
    ∧ (∀ d, block_process_job offset bh frame = .ok d →
        d = ⟨bh.block_id, frame.payload, frame.commit_tag.crc⟩)
    ∧ (frame.storage_block_header.block_id ≠ bh.block_id →
        block_process_job offset bh frame =
          .error (.BlockIdMismatch offset bh.block_id
            frame.storage_block_header.block_id))
    ∧ (frame.storage_block_header.block_id = bh.block_id →
        frame.storage_block_header.block_size ≠ bh.block_size →
        block_process_job offset bh frame =
          .error (.BlockSizeMismatch offset bh.block_id bh.block_size
            frame.storage_block_header.block_size))
    ∧ (frame.storage_block_header.block_id = bh.block_id →
        frame.storage_block_header.block_size = bh.block_size →
        frame.commit_tag.block_id ≠ bh.block_id →
        block_process_job offset bh frame =
          .error (.CommitTagBlockIdMismatch offset bh.block_id
            frame.commit_tag.block_id))
    ∧ (frame.storage_block_header.block_id = bh.block_id →
        frame.storage_block_header.block_size = bh.block_size →
        frame.commit_tag.block_id = bh.block_id →
        frame.commit_tag.crc ≠ crc frame.payload →
        block_process_job offset bh frame =
          .error (.CommitTagCrcMismatch offset (crc frame.payload)
            frame.commit_tag.crc)) := by
  unfold block_process_job
  by_cases h1 : frame.storage_block_header.block_id = bh.block_id
  · by_cases h2 : frame.storage_block_header.block_size = bh.block_size
    · by_cases h3 : frame.commit_tag.block_id = bh.block_id
      · by_cases h4 : frame.commit_tag.crc = crc frame.payload
        · simp [h1, h2, h3, h4]
        · simp [h1, h2, h3, h4]
          intro h; exact absurd h.symm h4
      · simp [h1, h2, h3]
    · simp [h1, h2]
  · simp [h1]

/-- Witness for C9 at concrete inputs: a matching frame validates to `Ok` and
an id mismatch yields `BlockIdMismatch`. -/
theorem claim_C9_witness :
    block_process_job 7 ⟨⟨3⟩, 0⟩ ⟨⟨⟨3⟩, 0⟩, [], ⟨⟨3⟩, 0⟩⟩ =
        .ok ⟨⟨3⟩, [], 0⟩
    ∧ block_process_job 7 ⟨⟨3⟩, 0⟩ ⟨⟨⟨4⟩, 0⟩, [], ⟨⟨3⟩, 0⟩⟩ =
        .error (.BlockIdMismatch 7 ⟨3⟩ ⟨4⟩) :=
  ⟨(claim_C9 7 ⟨⟨3⟩, 0⟩ ⟨⟨⟨3⟩, 0⟩, [], ⟨⟨3⟩, 0⟩⟩).1.mpr
      ⟨rfl, rfl, rfl, rfl⟩,
   (claim_C9 7 ⟨⟨3⟩, 0⟩ ⟨⟨⟨4⟩, 0⟩, [], ⟨⟨3⟩, 0⟩⟩).2.2.1 (by decide)⟩

/-- C10.  The defrag task queue is a minimum-offset priority queue:
`DefragTask`'s order is the reversed comparison of offsets, its equality
compares offsets only (ignoring the positions), and popping the
`BinaryHeap`-backed queue yields a task of smallest offset, two tasks at equal
offsets being tied regardless of their positions. -/
theorem claim_C10 :
    (∀ t u : DefragTask,
      (DefragTask.cmp t u = Ordering.lt ↔ u.offset < t.offset)
      ∧ (DefragTask.cmp t u = Ordering.eq ↔ t.offset = u.offset)
      ∧ (DefragTask.beq t u = true ↔ t.offset = u.offset))
    ∧ (∀ (q : DefragTaskQueue) (t : DefragTask) (rest : List DefragTask),
        heapPop q.queue = some (t, rest) →
        t ∈ q.queue ∧ ∀ u ∈ q.queue, t.offset ≤ u.offset) := by
  constructor
  · intro t u
    refine ⟨DefragTask.cmp_eq_lt, DefragTask.cmp_eq_eq, ?_⟩
    simp [DefragTask.beq]
  · intro q t rest h
    exact heapPop_min q.queue t rest h

/-- Witness for C10: popping a concrete three-element queue returns the
smallest-offset task, and two equal-offset tasks with different positions are
`cmp`-equal. -/
theorem claim_C10_witness :
    (⟨50, .StartAndBlock ⟨1⟩⟩ : DefragTask) ∈
        (((DefragTaskQueue.new.push 90 (.StartAndBlock ⟨2⟩)).push 50
            (.StartAndBlock ⟨1⟩)).push 70 (.StartAndBlock ⟨3⟩)).queue
    ∧ (∀ u ∈ (((DefragTaskQueue.new.push 90 (.StartAndBlock ⟨2⟩)).push 50
          (.StartAndBlock ⟨1⟩)).push 70 (.StartAndBlock ⟨3⟩)).queue,
        (50 : Nat) ≤ u.offset)
    ∧ DefragTask.cmp ⟨50, .StartAndBlock ⟨1⟩⟩
        ⟨50, .TwoBlocks ⟨7⟩ ⟨8⟩⟩ = Ordering.eq := by
  have h := claim_C10.2
      (((DefragTaskQueue.new.push 90 (.StartAndBlock ⟨2⟩)).push 50
          (.StartAndBlock ⟨1⟩)).push 70 (.StartAndBlock ⟨3⟩))
      ⟨50, .StartAndBlock ⟨1⟩⟩
      [⟨70, .StartAndBlock ⟨3⟩⟩, ⟨90, .StartAndBlock ⟨2⟩⟩] (by decide)
  exact ⟨h.1, h.2, (claim_C10.1 _ _).2.1.mpr rfl⟩

/-- C6.  Write placement offsets: a write of size S that succeeds in a
`TwoBlocks{left,right}` gap is placed at `left.offset + data_size_block_min +
left.size`; a write that succeeds in a `BlockAndEnd` gap is placed at the old
end-of-file sentinel's offset, the sentinel is removed, a fresh sentinel with
a newly allocated id is inserted at `O + data_size_block_min + S`, and the
emitted write task is tagged `CommitAndEof`. -/
theorem claim_C6 (s : Schema) (block_bytes : List Nat)
    (tq : List (Nat × WriteBlockTask)) :
    (∀ gaps_after sa l r,
      s.gaps.allocate block_bytes.length s.blocks_index =
          (gaps_after, .Success sa (.TwoBlocks l r)) →
      ∃ gi dp, (s.process_write_block_request block_bytes tq).2.2 =
        .performed (l.block_entry.offset + s.storage_layout.data_size_block_min
            + l.block_entry.header.block_size) sa (.TwoBlocks l r) .CommitOnly
          gi dp)
    ∧ (∀ gaps_after sa l,
      s.gaps.allocate block_bytes.length s.blocks_index =
          (gaps_after, .Success sa (.BlockAndEnd l)) →
      IdsBelow s →
      (∃ gi, (s.process_write_block_request block_bytes tq).2.2 =
          .performed l.block_entry.offset sa (.BlockAndEnd l) .CommitAndEof
            gi none)
      ∧ (s.process_write_block_request block_bytes tq).1.blocks_index.get
          l.block_id = none
      ∧ (s.process_write_block_request block_bytes tq).1.blocks_index.get
          s.next_block_id.next =
          some ⟨l.block_entry.offset + s.storage_layout.data_size_block_min
            + block_bytes.length, .EndOfFile⟩
      ∧ (s.process_write_block_request block_bytes tq).1.next_block_id =
          s.next_block_id.next.next
      ∧ (s.process_write_block_request block_bytes tq).2.1 =
          tq ++ [(l.block_entry.offset,
            ⟨s.next_block_id, block_bytes, .CommitAndEof⟩)]) := by
  constructor
  · intro gaps_after sa l r h
    unfold Schema.process_write_block_request
    dsimp only
    rw [h]
    exact ⟨_, _, rfl⟩
  · intro gaps_after sa l h hbelow
    have hres := allocate_success_resolves h
    obtain ⟨⟨bw, hbw⟩, -⟩ := hres
    obtain ⟨hbw_eq, hget⟩ := resolveGap_blockAndEnd hbw
    have hmem := Blocks.mem_of_get_eq_some hget
    have hlt : l.block_id.serial < s.next_block_id.serial :=
      hbelow (l.block_id, l.block_entry) hmem
    have hne1 : l.block_id ≠ s.next_block_id.next := by
      intro hk
      have := congrArg BlockId.serial hk
      simp only [BlockId.next] at this
      omega
    have hne2 : l.block_id ≠ s.next_block_id := by
      intro hk
      have := congrArg BlockId.serial hk
      omega
    have hoff : l.block_entry.offset + block_bytes.length
        + s.storage_layout.data_size_block_min
        = l.block_entry.offset + s.storage_layout.data_size_block_min
          + block_bytes.length := by omega
    unfold Schema.process_write_block_request
    dsimp only
    rw [h]
    dsimp only
    by_cases hg : s.storage_layout.data_size_block_min
        ≤ sa - block_bytes.length
    · rw [if_pos hg]
      dsimp only
      refine ⟨⟨_, rfl⟩, ?_, ?_, rfl, rfl⟩
      · rw [Blocks.get_insert_ne _ _ _ _ hne1, Blocks.get_insert_ne _ _ _ _ hne2,
          Blocks.get_remove_self]
      · rw [Blocks.get_insert_self, hoff]
    · rw [if_neg hg]
      dsimp only
      refine ⟨⟨_, rfl⟩, ?_, ?_, rfl, rfl⟩
      · rw [Blocks.get_insert_ne _ _ _ _ hne1, Blocks.get_insert_ne _ _ _ _ hne2,
          Blocks.get_remove_self]
      · rw [Blocks.get_insert_self, hoff]

theorem gap_if_facts (dmin len sa : Nat) (bw' : GapBetween BlockId) :
    ((∃ g, (if dmin ≤ sa - len then some (sa - len - dmin, bw') else none) =
      some g) ↔ dmin ≤ sa - len)
    ∧ (∀ g, (if dmin ≤ sa - len then some (sa - len - dmin, bw') else none) =
        some g → (g : Nat × GapBetween BlockId).1 = sa - len - dmin
          ∧ g.2 = bw') := by
  by_cases hc : dmin ≤ sa - len
  · rw [if_pos hc]
    refine ⟨⟨fun _ => hc, fun _ => ⟨_, rfl⟩⟩, ?_⟩
    intro g hg
    cases hg
    exact ⟨rfl, rfl⟩
  · rw [if_neg hc]
    refine ⟨⟨?_, fun hcc => absurd hcc hc⟩, ?_⟩
    · rintro ⟨g, hg⟩; exact Option.noConfusion hg
    · intro g hg; exact Option.noConfusion hg

theorem dp_if_facts (c : Prop) [Decidable c] (t0 : DefragTask) :
    ∀ t, (if c then some t0 else none) = some t → t = t0 := by
  intro t ht
  by_cases hc : c
  · rw [if_pos hc] at ht; exact (Option.some.inj ht).symm
  · rw [if_neg hc] at ht; exact Option.noConfusion ht

/-- C8.  Defrag candidate enqueue condition: after a successful placement with
`space_available` sa and request size S, a gap of `(sa - S) -
data_size_block_min` payload bytes is inserted between the new block and its
right neighbor exactly when `sa - S ≥ data_size_block_min`, and a defrag entry
naming the right neighbor as the moving block is pushed only when that right
neighbor is a regular block — never for a `BlockAndEnd` placement, whose right
end is the end-of-file side. -/
theorem claim_C8 (s : Schema) (block_bytes : List Nat)
    (tq : List (Nat × WriteBlockTask)) (hwf : GapsWF s) :
    ∀ off sa bw ct gi dp,
      (s.process_write_block_request block_bytes tq).2.2 =
        .performed off sa bw ct gi dp →
      ((∃ g, gi = some g) ↔
        s.storage_layout.data_size_block_min ≤ sa - block_bytes.length)
      ∧ (∀ g, gi = some g →
          (g : Nat × GapBetween BlockId).1 =
            sa - block_bytes.length - s.storage_layout.data_size_block_min
          ∧ g.2 = (match rightRef bw with
            | some r => GapBetween.TwoBlocks s.next_block_id r.block_id
            | none => GapBetween.BlockAndEnd s.next_block_id.next))
      ∧ (∀ t, dp = some t → ∃ r, rightRef bw = some r
          ∧ t.position = .TwoBlocks s.next_block_id r.block_id
          ∧ ∃ i n, r.block_entry.header = .Regular i n)
      ∧ (rightRef bw = none → dp = none) := by
  intro off sa bw ct gi dp h
  unfold Schema.process_write_block_request at h
  dsimp only at h
  rcases hA : s.gaps.allocate block_bytes.length s.blocks_index with ⟨ga, out⟩
  rw [hA] at h
  cases out with
  | Success sa0 res =>
    cases res with
    | StartAndBlock r =>
      dsimp only at h
      rw [WriteEffect.performed.injEq] at h
      obtain ⟨-, hsa, hbw, -, hgi, hdp⟩ := h
      obtain ⟨bw0, hmem, hres0⟩ := allocate_success_mem hA
      obtain ⟨hbw0, hrget⟩ := resolveGap_startAndBlock hres0
      subst hbw0
      have hw := hwf _ hmem
      dsimp only at hw
      obtain ⟨e, he, i, n, hreg⟩ := hw
      have hee : e = r.block_entry := by
        rw [he] at hrget; exact Option.some.inj hrget
      subst hee
      subst hsa; subst hbw; subst hgi; subst hdp
      dsimp only [rightRef]
      refine ⟨(gap_if_facts _ _ _ _).1, (gap_if_facts _ _ _ _).2, ?_, ?_⟩
      · intro t ht
        have := dp_if_facts _ _ t ht
        subst this
        exact ⟨r, rfl, rfl, i, n, hreg⟩
      · intro habs; exact Option.noConfusion habs
    | TwoBlocks l r =>
      dsimp only at h
      rw [WriteEffect.performed.injEq] at h
      obtain ⟨-, hsa, hbw, -, hgi, hdp⟩ := h
      obtain ⟨bw0, hmem, hres0⟩ := allocate_success_mem hA
      obtain ⟨hbw0, -, hrget⟩ := resolveGap_twoBlocks hres0
      subst hbw0
      have hw := hwf _ hmem
      dsimp only at hw
      obtain ⟨-, e, he, i, n, hreg⟩ := hw
      have hee : e = r.block_entry := by
        rw [he] at hrget; exact Option.some.inj hrget
      subst hee
      subst hsa; subst hbw; subst hgi; subst hdp
      dsimp only [rightRef]
      refine ⟨(gap_if_facts _ _ _ _).1, (gap_if_facts _ _ _ _).2, ?_, ?_⟩
      · intro t ht
        have := dp_if_facts _ _ t ht
        subst this
        exact ⟨r, rfl, rfl, i, n, hreg⟩
      · intro habs; exact Option.noConfusion habs
    | BlockAndEnd l =>
      dsimp only at h
      rw [WriteEffect.performed.injEq] at h
      obtain ⟨-, hsa, hbw, -, hgi, hdp⟩ := h
      subst hsa; subst hbw; subst hgi; subst hdp
      dsimp only [rightRef]
      refine ⟨(gap_if_facts _ _ _ _).1, (gap_if_facts _ _ _ _).2, ?_, ?_⟩
      · intro t ht; exact Option.noConfusion ht
      · intro _; rfl
  | PendingDefragmentation =>
    dsimp only at h
    exact WriteEffect.noConfusion h
  | NoSpaceLeft =>
    dsimp only at h
    exact WriteEffect.noConfusion h

/-- Witness for C8: on the fresh 160-byte wheel the first write leaves 83
bytes, so a 47-byte gap is inserted (83 ≥ 36) and no defrag entry is pushed
(`BlockAndEnd` placement); in `schemaTwoBlocksExample` the pushed defrag entry
names the regular right neighbor (id 1) as the moving block. -/
theorem claim_C8_witness :
    ((∃ g, (some ((47 : Nat), GapBetween.BlockAndEnd (⟨2⟩ : BlockId))) = some g)
      ↔ (36 : Nat) ≤ 96 - 13)
    ∧ (∃ r, rightRef (.TwoBlocks ⟨⟨0⟩, ⟨24, .Regular ⟨0⟩ 5⟩⟩
          ⟨⟨1⟩, ⟨121, .Regular ⟨1⟩ 5⟩⟩) = some r
        ∧ (DefragTask.position ⟨114, .TwoBlocks ⟨2⟩ ⟨1⟩⟩) =
            .TwoBlocks schemaTwoBlocksExample.next_block_id r.block_id
        ∧ ∃ i n, r.block_entry.header = .Regular i n) := by
  have hwf160 : GapsWF schemaFresh160 := by
    intro g hg
    have hgs : schemaFresh160.gaps.gaps =
        [((96 : Nat), GapBetween.BlockAndEnd (⟨0⟩ : BlockId))] := by decide
    rw [hgs] at hg
    rcases List.mem_singleton.mp hg with rfl
    exact ⟨⟨24, .EndOfFile⟩, by decide, rfl⟩
  have hwf2 : GapsWF schemaTwoBlocksExample := by
    intro g hg
    have hgs : schemaTwoBlocksExample.gaps.gaps =
        [((20 : Nat), GapBetween.TwoBlocks (⟨0⟩ : BlockId) ⟨1⟩)] := by decide
    rw [hgs] at hg
    rcases List.mem_singleton.mp hg with rfl
    exact ⟨⟨⟨24, .Regular ⟨0⟩ 5⟩, by decide⟩,
      ⟨121, .Regular ⟨1⟩ 5⟩, by decide, ⟨1⟩, 5, rfl⟩
  have h160 := claim_C8 schemaFresh160 helloWorldBytes [] hwf160
      24 96 (.BlockAndEnd ⟨⟨0⟩, ⟨24, .EndOfFile⟩⟩) .CommitAndEof
      (some (47, .BlockAndEnd ⟨2⟩)) none (by decide)
  have h2b := claim_C8 schemaTwoBlocksExample helloWorldBytes [] hwf2
      65 20 (.TwoBlocks ⟨⟨0⟩, ⟨24, .Regular ⟨0⟩ 5⟩⟩ ⟨⟨1⟩, ⟨121, .Regular ⟨1⟩ 5⟩⟩)
      .CommitOnly none (some ⟨114, .TwoBlocks ⟨2⟩ ⟨1⟩⟩) (by decide)
  exact ⟨h160.1, h2b.2.2.1 ⟨114, .TwoBlocks ⟨2⟩ ⟨1⟩⟩ rfl⟩


/-- Witness for C6: the `TwoBlocks` placement at offset 65 in
`schemaTwoBlocksExample`, and the `BlockAndEnd` placement on a fresh 160-byte
wheel: first write placed at 24, old sentinel (id 0) removed, fresh sentinel
id 2 at offset 73. -/
theorem claim_C6_witness :
    (∃ gi dp,
      (schemaTwoBlocksExample.process_write_block_request helloWorldBytes
          []).2.2 =
        .performed 65 20
          (.TwoBlocks ⟨⟨0⟩, ⟨24, .Regular ⟨0⟩ 5⟩⟩ ⟨⟨1⟩, ⟨121, .Regular ⟨1⟩ 5⟩⟩)
          .CommitOnly gi dp)
    ∧ (∃ gi,
      (schemaFresh160.process_write_block_request helloWorldBytes []).2.2 =
        .performed 24 96 (.BlockAndEnd ⟨⟨0⟩, ⟨24, .EndOfFile⟩⟩) .CommitAndEof
          gi none)
    ∧ (schemaFresh160.process_write_block_request helloWorldBytes
        []).1.blocks_index.get ⟨0⟩ = none
    ∧ (schemaFresh160.process_write_block_request helloWorldBytes
        []).1.blocks_index.get ⟨2⟩ = some ⟨73, .EndOfFile⟩ := by
  have h1 := (claim_C6 schemaTwoBlocksExample helloWorldBytes []).1
      ⟨[]⟩ 20 ⟨⟨0⟩, ⟨24, .Regular ⟨0⟩ 5⟩⟩ ⟨⟨1⟩, ⟨121, .Regular ⟨1⟩ 5⟩⟩
      (by decide)
  have h2 := (claim_C6 schemaFresh160 helloWorldBytes []).2
      ⟨[]⟩ 96 ⟨⟨0⟩, ⟨24, .EndOfFile⟩⟩ (by decide) (by decide)
  refine ⟨?_, h2.1, h2.2.1, ?_⟩
  · have : (65 : Nat) = 24 + testLayout.data_size_block_min + 5 := by decide
    rw [this]
    exact h1
  · have h3 := h2.2.2.1
    simpa using h3

theorem BlockId.serial_next (x : BlockId) : x.next.serial = x.serial + 1 := rfl

theorem process_write_ids (s : Schema) (bytes : List Nat)
    (tq : List (Nat × WriteBlockTask)) (hb : IdsBelow s) :
    IdsBelow (s.process_write_block_request bytes tq).1
    ∧ s.next_block_id.serial <
        (s.process_write_block_request bytes tq).1.next_block_id.serial := by
  unfold Schema.process_write_block_request
  dsimp only
  rcases hA : s.gaps.allocate bytes.length s.blocks_index with ⟨ga, out⟩
  cases out with
  | Success sa0 res =>
    cases res with
    | StartAndBlock r =>
      dsimp only
      constructor
      · unfold IdsBelow
        split <;> split <;> simp only [BlockId.serial_next] <;>
          (refine idsBound_insert (fun p hp => ?_) (by omega);
           have := hb p hp; omega)
      · split <;> split <;> simp only [BlockId.serial_next] <;> omega
    | TwoBlocks l r =>
      dsimp only
      constructor
      · unfold IdsBelow
        split <;> split <;> simp only [BlockId.serial_next] <;>
          (refine idsBound_insert (fun p hp => ?_) (by omega);
           have := hb p hp; omega)
      · split <;> split <;> simp only [BlockId.serial_next] <;> omega
    | BlockAndEnd l =>
      dsimp only
      constructor
      · unfold IdsBelow
        split <;> simp only [BlockId.serial_next] <;>
          (refine idsBound_insert (idsBound_insert
              (idsBound_remove (fun p hp => ?_))
              (by omega))
              (by simp only [BlockId.serial_next]; omega);
           have := hb p hp; omega)
      · split <;> simp only [BlockId.serial_next] <;> omega
  | PendingDefragmentation =>
    dsimp only
    refine ⟨fun p hp => ?_, by simp only [BlockId.serial_next]; omega⟩
    have := hb p hp
    simp only [BlockId.serial_next]
    omega
  | NoSpaceLeft =>
    dsimp only
    refine ⟨fun p hp => ?_, by simp only [BlockId.serial_next]; omega⟩
    have := hb p hp
    simp only [BlockId.serial_next]
    omega

/-! ### The reachable-state invariant (claim C1) -/

theorem insertSorted_append_of_lt {k : BlockId} {v : BlockEntry} :
    ∀ {l : List (BlockId × BlockEntry)},
      (∀ p ∈ l, (p : BlockId × BlockEntry).1.serial < k.serial) →
      insertSorted k v l = l ++ [(k, v)] := by
  intro l
  induction l with
  | nil => intro _; rfl
  | cons q rest ih =>
    intro hb
    have hq := hb q (List.mem_cons_self _ _)
    simp only [insertSorted]
    rw [if_neg (by omega), if_neg (by omega), List.cons_append]
    congr 1
    exact ih (fun p hp => hb p (List.mem_cons_of_mem _ hp))

theorem placeAll_append (l : Layout) (i : BlockId) (sz : Nat) :
    ∀ (regs : List (BlockId × Nat)) (off : Nat),
      placeAll l off (regs ++ [(i, sz)]) =
        placeAll l off regs ++ [(i, ⟨endOffset l off regs, .Regular i sz⟩)] := by
  intro regs
  induction regs with
  | nil => intro off; rfl
  | cons q rest ih =>
    intro off
    obtain ⟨qi, qsz⟩ := q
    simp only [List.cons_append, placeAll, endOffset]
    congr 1
    exact ih _

theorem endOffset_append (l : Layout) (i : BlockId) (sz : Nat) :
    ∀ (regs : List (BlockId × Nat)) (off : Nat),
      endOffset l off (regs ++ [(i, sz)]) =
        endOffset l off regs + l.data_size_block_min + sz := by
  intro regs
  induction regs with
  | nil => intro off; rfl
  | cons q rest ih =>
    intro off
    obtain ⟨qi, qsz⟩ := q
    simp only [List.cons_append, endOffset]
    exact ih _

theorem mem_placeAll_serial {l : Layout} {p : BlockId × BlockEntry} :
    ∀ {regs : List (BlockId × Nat)} {off : Nat},
      p ∈ placeAll l off regs → ∃ q ∈ regs,
        (p : BlockId × BlockEntry).1 = (q : BlockId × Nat).1 := by
  intro regs
  induction regs with
  | nil => intro off h; simp [placeAll] at h
  | cons q rest ih =>
    intro off h
    obtain ⟨qi, qsz⟩ := q
    simp only [placeAll] at h
    rcases List.mem_cons.mp h with rfl | h2
    · exact ⟨(qi, qsz), List.mem_cons_self _ _, rfl⟩
    · obtain ⟨r, hr, hpr⟩ := ih h2
      exact ⟨r, List.mem_cons_of_mem _ hr, hpr⟩

theorem find?_append_of_none {p : BlockId × BlockEntry → Bool}
    {l₁ l₂ : List (BlockId × BlockEntry)} (h : l₁.find? p = none) :
    (l₁ ++ l₂).find? p = l₂.find? p := by
  induction l₁ with
  | nil => rfl
  | cons q rest ih =>
    rw [List.find?_cons] at h
    cases hq : p q with
    | true => rw [hq] at h; exact Option.noConfusion h
    | false =>
      rw [hq] at h
      rw [List.cons_append, List.find?_cons, hq]
      exact ih h

theorem get_canon {m : Blocks} {l : Layout} {regs : List (BlockId × Nat)}
    {eofId : BlockId} (hkvs : m.kvs = canonKvs l regs eofId)
    (hb : ∀ p ∈ regs, (p : BlockId × Nat).1.serial < eofId.serial) :
    m.get eofId = some ⟨endOffset l l.wheel_header_size regs, .EndOfFile⟩ := by
  simp only [Blocks.get]
  rw [hkvs]
  unfold canonKvs
  rw [find?_append_of_none]
  · simp [List.find?]
  · rw [List.find?_eq_none]
    intro p hp
    obtain ⟨q, hq, hpq⟩ := mem_placeAll_serial hp
    have := hb q hq
    simp only [beq_iff_eq]
    intro he
    rw [he] at hpq
    have : eofId.serial = q.1.serial := congrArg BlockId.serial hpq.symm ▸ rfl
    omega

theorem canon_filter_eof {l : Layout} {regs : List (BlockId × Nat)}
    {eofId : BlockId}
    (hb : ∀ p ∈ regs, (p : BlockId × Nat).1.serial < eofId.serial) :
    (canonKvs l regs eofId).filter (fun p => ¬ p.1 = eofId) =
      placeAll l l.wheel_header_size regs := by
  unfold canonKvs
  rw [List.filter_append]
  have h1 : (placeAll l l.wheel_header_size regs).filter
      (fun p => ¬ p.1 = eofId) = placeAll l l.wheel_header_size regs := by
    rw [List.filter_eq_self]
    intro p hp
    obtain ⟨q, hq, hpq⟩ := mem_placeAll_serial hp
    have := hb q hq
    simp only [decide_not, Bool.not_eq_true', decide_eq_false_iff_not]
    intro he
    rw [he] at hpq
    have : eofId.serial = q.1.serial := congrArg BlockId.serial hpq.symm ▸ rfl
    omega
  rw [h1]
  have h2 : ([((eofId : BlockId),
      (⟨endOffset l l.wheel_header_size regs, .EndOfFile⟩ : BlockEntry))].filter
        (fun p => ¬ p.1 = eofId)) = [] := by
    simp
  rw [h2, List.append_nil]

theorem schemaWF_init (layout : Layout) (size : Nat)
    (hmin : 0 < layout.data_size_block_min) :
    SchemaWF ((Schema.new layout).initialize_empty size) := by
  unfold Schema.new Schema.initialize_empty
  dsimp only
  by_cases hsz : layout.data_size_service_min + layout.data_size_block_min
      < size
  · rw [if_pos hsz]
    refine ⟨[], ⟨0⟩,
      some (size - (layout.data_size_service_min + layout.data_size_block_min)),
      rfl, List.Pairwise.nil, ?_, ?_, rfl, hmin⟩
    · intro p hp; cases hp
    · simp only [BlockId.serial_next]; omega
  · rw [if_neg hsz]
    refine ⟨[], ⟨0⟩, none, rfl, List.Pairwise.nil, ?_, ?_, rfl, hmin⟩
    · intro p hp; cases hp
    · simp only [BlockId.serial_next]; omega

theorem schemaWF_write (s : Schema) (bytes : List Nat)
    (tq : List (Nat × WriteBlockTask)) (hwf : SchemaWF s) :
    SchemaWF (s.process_write_block_request bytes tq).1 := by
  obtain ⟨regs, eofId, gap, hkvs, hasc, hbound, heof, hgaps, hmin⟩ := hwf
  unfold Schema.process_write_block_request
  dsimp only
  cases gap with
  | none =>
    have hg : s.gaps.gaps = [] := hgaps
    have hA : s.gaps.allocate bytes.length s.blocks_index =
        (if bytes.length ≤ s.gaps.space_total
          then (s.gaps, .PendingDefragmentation)
          else (s.gaps, .NoSpaceLeft)) := by
      unfold GapsIndex.allocate
      rw [hg]
      rfl
    by_cases hlen : bytes.length ≤ s.gaps.space_total
    · rw [if_pos hlen] at hA
      rw [hA]
      exact ⟨regs, eofId, none, hkvs, hasc, hbound,
        by simp only [BlockId.serial_next]; omega, hg, hmin⟩
    · rw [if_neg hlen] at hA
      rw [hA]
      exact ⟨regs, eofId, none, hkvs, hasc, hbound,
        by simp only [BlockId.serial_next]; omega, hg, hmin⟩
  | some a =>
    have hg : s.gaps.gaps = [(a, GapBetween.BlockAndEnd eofId)] := hgaps
    have hget : s.blocks_index.get eofId =
        some ⟨endOffset s.storage_layout s.storage_layout.wheel_header_size
          regs, .EndOfFile⟩ := get_canon hkvs hbound
    by_cases hlen : bytes.length ≤ a
    · have hA : s.gaps.allocate bytes.length s.blocks_index =
          (⟨[]⟩, .Success a (.BlockAndEnd ⟨eofId,
            ⟨endOffset s.storage_layout s.storage_layout.wheel_header_size
              regs, .EndOfFile⟩⟩)) := by
        unfold GapsIndex.allocate
        rw [hg]
        simp only [bestFit, resolveGap, hget, Option.map_some', if_pos hlen]
        simp [removeFirstGap]
      rw [hA]
      dsimp only
      have hboundN : ∀ p ∈ placeAll s.storage_layout
          s.storage_layout.wheel_header_size regs,
          (p : BlockId × BlockEntry).1.serial < s.next_block_id.serial := by
        intro p hp
        obtain ⟨q, hq, hpq⟩ := mem_placeAll_serial hp
        have h1 := hbound q hq
        have h2 : p.1.serial = q.1.serial := congrArg BlockId.serial hpq
        omega
      have hrm : ((s.blocks_index.remove eofId).1).kvs =
          placeAll s.storage_layout s.storage_layout.wheel_header_size regs := by
        simp only [Blocks.remove]
        rw [hkvs]
        exact canon_filter_eof hbound
      have hins1 : (((s.blocks_index.remove eofId).1).insert s.next_block_id
          ⟨endOffset s.storage_layout s.storage_layout.wheel_header_size regs,
            .Regular s.next_block_id bytes.length⟩).kvs =
          placeAll s.storage_layout s.storage_layout.wheel_header_size regs
            ++ [(s.next_block_id,
              ⟨endOffset s.storage_layout s.storage_layout.wheel_header_size
                regs, .Regular s.next_block_id bytes.length⟩)] := by
        simp only [Blocks.insert]
        rw [hrm]
        exact insertSorted_append_of_lt hboundN
      have hins2 : ∀ v : BlockEntry,
          ((((s.blocks_index.remove eofId).1).insert s.next_block_id
            ⟨endOffset s.storage_layout s.storage_layout.wheel_header_size
              regs, .Regular s.next_block_id bytes.length⟩).insert
            s.next_block_id.next v).kvs =
          placeAll s.storage_layout s.storage_layout.wheel_header_size regs
            ++ [(s.next_block_id,
              ⟨endOffset s.storage_layout s.storage_layout.wheel_header_size
                regs, .Regular s.next_block_id bytes.length⟩)]
            ++ [(s.next_block_id.next, v)] := by
        intro v
        simp only [Blocks.insert] at hins1 ⊢
        rw [hins1]
        refine insertSorted_append_of_lt ?_
        intro p hp
        rcases List.mem_append.mp hp with hp1 | hp2
        · have := hboundN p hp1
          simp only [BlockId.serial_next]
          omega
        · rcases List.mem_singleton.mp hp2 with rfl
          simp only [BlockId.serial_next]
          omega
      have hcanon : ∀ v : BlockEntry,
          placeAll s.storage_layout s.storage_layout.wheel_header_size regs
            ++ [(s.next_block_id,
              ⟨endOffset s.storage_layout s.storage_layout.wheel_header_size
                regs, .Regular s.next_block_id bytes.length⟩)]
            ++ [(s.next_block_id.next, v)] =
          placeAll s.storage_layout s.storage_layout.wheel_header_size
            (regs ++ [(s.next_block_id, bytes.length)])
            ++ [(s.next_block_id.next, v)] := by
        intro v
        rw [placeAll_append]
      have hend : endOffset s.storage_layout s.storage_layout.wheel_header_size
          (regs ++ [(s.next_block_id, bytes.length)]) =
          endOffset s.storage_layout s.storage_layout.wheel_header_size regs
            + s.storage_layout.data_size_block_min + bytes.length := by
        rw [endOffset_append]
      have hascN : List.Pairwise (fun a b => a.1.serial < b.1.serial)
          (regs ++ [(s.next_block_id, bytes.length)]) := by
        rw [List.pairwise_append]
        refine ⟨hasc, List.pairwise_singleton _ _, ?_⟩
        intro p hp q hq
        rcases List.mem_singleton.mp hq with rfl
        have h1 := hbound p hp
        show p.1.serial < s.next_block_id.serial
        omega
      have hboundN2 : ∀ p ∈ regs ++ [(s.next_block_id, bytes.length)],
          (p : BlockId × Nat).1.serial < s.next_block_id.next.serial := by
        intro p hp
        rcases List.mem_append.mp hp with hp1 | hp2
        · have := hbound p hp1
          simp only [BlockId.serial_next]
          omega
        · rcases List.mem_singleton.mp hp2 with rfl
          simp only [BlockId.serial_next]
          omega
      by_cases hgap : s.storage_layout.data_size_block_min
          ≤ a - bytes.length
      · rw [if_pos hgap]
        dsimp only
        refine ⟨regs ++ [(s.next_block_id, bytes.length)],
          s.next_block_id.next,
          some (a - bytes.length - s.storage_layout.data_size_block_min),
          ?_, hascN, hboundN2, by simp only [BlockId.serial_next]; omega,
          rfl, hmin⟩
        rw [hins2, hcanon]
        unfold canonKvs
        rw [hend]
        have hoff : endOffset s.storage_layout
            s.storage_layout.wheel_header_size regs + bytes.length
            + s.storage_layout.data_size_block_min =
            endOffset s.storage_layout s.storage_layout.wheel_header_size regs
            + s.storage_layout.data_size_block_min + bytes.length := by
          omega
        rw [hoff]
      · rw [if_neg hgap]
        dsimp only
        refine ⟨regs ++ [(s.next_block_id, bytes.length)],
          s.next_block_id.next, none,
          ?_, hascN, hboundN2, by simp only [BlockId.serial_next]; omega,
          rfl, hmin⟩
        rw [hins2, hcanon]
        unfold canonKvs
        rw [hend]
        have hoff : endOffset s.storage_layout
            s.storage_layout.wheel_header_size regs + bytes.length
            + s.storage_layout.data_size_block_min =
            endOffset s.storage_layout s.storage_layout.wheel_header_size regs
            + s.storage_layout.data_size_block_min + bytes.length := by
          omega
        rw [hoff]
    · have hA : s.gaps.allocate bytes.length s.blocks_index =
          (s.gaps, .NoSpaceLeft) := by
        have hst : s.gaps.space_total = a := by
          simp [GapsIndex.space_total, hg]
        unfold GapsIndex.allocate
        rw [hg]
        simp only [bestFit, resolveGap, hget, Option.map_some', if_neg hlen]
        rw [if_neg (by rw [hst]; exact hlen)]
      rw [hA]
      dsimp only
      exact ⟨regs, eofId, some a, hkvs, hasc, hbound,
        by simp only [BlockId.serial_next]; omega, hg, hmin⟩

theorem schemaWF_reach {s : Schema} (h : SchemaReach s) : SchemaWF s := by
  induction h with
  | init layout size hmin => exact schemaWF_init layout size hmin
  | write s bytes tq _ ih => exact schemaWF_write s bytes tq ih

theorem stepChain_cons {l : Layout} {x : BlockEntry} {rest : List BlockEntry}
    (h : stepChain l (x :: rest)) : stepChain l rest := by
  cases rest with
  | nil => trivial
  | cons y r => exact h.2

theorem canon_head_offset (l : Layout) :
    ∀ (regs : List (BlockId × Nat)) (off : Nat),
      ∃ h t, (placeAll l off regs).map Prod.snd
          ++ [⟨endOffset l off regs, .EndOfFile⟩] = h :: t
        ∧ (h : BlockEntry).offset = off := by
  intro regs off
  cases regs with
  | nil => exact ⟨⟨off, .EndOfFile⟩, [], rfl, rfl⟩
  | cons q rest =>
    obtain ⟨qi, qsz⟩ := q
    exact ⟨⟨off, .Regular qi qsz⟩, _, rfl, rfl⟩

theorem canon_stepChain (l : Layout) :
    ∀ (regs : List (BlockId × Nat)) (off : Nat),
      stepChain l ((placeAll l off regs).map Prod.snd
        ++ [⟨endOffset l off regs, .EndOfFile⟩]) := by
  intro regs
  induction regs with
  | nil => intro off; trivial
  | cons q rest ih =>
    intro off
    obtain ⟨qi, qsz⟩ := q
    simp only [placeAll, endOffset, List.map_cons, List.cons_append]
    obtain ⟨h, t, heq, hoff⟩ :=
      canon_head_offset l rest (off + l.data_size_block_min + qsz)
    rw [heq]
    refine ⟨hoff, ?_⟩
    have := ih (off + l.data_size_block_min + qsz)
    rw [heq] at this
    exact this

theorem stepChain_chain {l : Layout} (hmin : 0 < l.data_size_block_min) :
    ∀ {es : List BlockEntry}, stepChain l es →
      List.Chain' (fun x y => x.offset < y.offset) es := by
  intro es
  induction es with
  | nil => intro _; exact List.chain'_nil
  | cons a rest ih =>
    intro h
    cases rest with
    | nil => exact List.chain'_singleton _
    | cons b r =>
      obtain ⟨h1, h2⟩ := h
      rw [List.chain'_cons]
      exact ⟨by omega, ih h2⟩

theorem pairwise_between : ∀ (es : List BlockEntry),
    List.Pairwise (fun x y => x.offset < y.offset) es →
    ∀ a b : BlockEntry, a ∈ es → b ∈ es → a.offset < b.offset →
    (∀ c ∈ es, ¬(a.offset < c.offset ∧ c.offset < b.offset)) →
    ∃ l1 l2, es = l1 ++ a :: b :: l2 := by
  intro es
  induction es with
  | nil => intro _ a b ha; cases ha
  | cons x rest ih =>
    intro hp a b ha hb hab hno
    rw [List.pairwise_cons] at hp
    obtain ⟨hx, hp2⟩ := hp
    rcases List.mem_cons.mp ha with rfl | ha2
    · rcases List.mem_cons.mp hb with rfl | hb2
      · exact absurd hab (lt_irrefl _)
      · cases rest with
        | nil => cases hb2
        | cons y rest2 =>
          rcases List.mem_cons.mp hb2 with rfl | hb3
          · exact ⟨[], rest2, rfl⟩
          · exfalso
            have hy1 : a.offset < y.offset := hx y (List.mem_cons_self _ _)
            have hy2 : y.offset < b.offset := by
              rw [List.pairwise_cons] at hp2
              exact hp2.1 b hb3
            exact hno y (List.mem_cons_of_mem _ (List.mem_cons_self _ _))
              ⟨hy1, hy2⟩
    · rcases List.mem_cons.mp hb with rfl | hb2
      · exfalso
        have := hx a ha2
        omega
      · obtain ⟨l1, l2, heq⟩ := ih hp2 a b ha2 hb2 hab
          (fun c hc => hno c (List.mem_cons_of_mem _ hc))
        exact ⟨x :: l1, l2, by rw [List.cons_append, heq]⟩

theorem stepChain_consec {l : Layout} :
    ∀ (l1 : List BlockEntry) (a b : BlockEntry) (l2 : List BlockEntry),
      stepChain l (l1 ++ a :: b :: l2) →
      b.offset = a.offset + l.data_size_block_min + a.header.block_size := by
  intro l1
  induction l1 with
  | nil => intro a b l2 h; exact h.1
  | cons x r ih => intro a b l2 h; exact ih a b l2 (stepChain_cons h)

/-- C1.  Layout adjacency invariant: in every schema state reachable by
initialization and write requests, for every entry A whose right neighbor in
the block index is B, `B.offset = A.offset + data_size_block_min + A.size`
(equivalently `B.offset − A.offset = data_size_block_min + A.size`), and the
end-of-file sentinel is the highest-offset entry of the index. -/
theorem claim_C1 (s : Schema) (h : SchemaReach s) :
    (∀ a b : BlockEntry, rightNeighbor s a b →
      b.offset = a.offset + s.storage_layout.data_size_block_min
        + a.header.block_size
      ∧ b.offset - a.offset = s.storage_layout.data_size_block_min
        + a.header.block_size)
    ∧ ∃ e ∈ entryList s, e.header = BlockHeader.EndOfFile
        ∧ ∀ f ∈ entryList s, f ≠ e → f.offset < e.offset := by
  obtain ⟨regs, eofId, gap, hkvs, hasc, hbound, heof, hgaps, hmin⟩ :=
    schemaWF_reach h
  have hentries : entryList s =
      (placeAll s.storage_layout s.storage_layout.wheel_header_size
        regs).map Prod.snd
        ++ [⟨endOffset s.storage_layout s.storage_layout.wheel_header_size
          regs, .EndOfFile⟩] := by
    unfold entryList
    rw [hkvs]
    unfold canonKvs
    rw [List.map_append]
    rfl
  have hchain : stepChain s.storage_layout (entryList s) := by
    rw [hentries]
    exact canon_stepChain _ _ _
  have hchain2 := stepChain_chain hmin hchain
  have htrans : IsTrans BlockEntry (fun x y => x.offset < y.offset) :=
    ⟨fun a b c h1 h2 => Nat.lt_trans h1 h2⟩
  have hpair := (@List.chain'_iff_pairwise BlockEntry
    (fun x y => x.offset < y.offset) htrans (entryList s)).mp hchain2
  constructor
  · intro a b hn
    obtain ⟨ha, hb, hab, hno⟩ := hn
    obtain ⟨l1, l2, heq⟩ := pairwise_between _ hpair a b ha hb hab hno
    have hstep := stepChain_consec l1 a b l2 (by rw [← heq]; exact hchain)
    exact ⟨hstep, by omega⟩
  · refine ⟨⟨endOffset s.storage_layout s.storage_layout.wheel_header_size
      regs, .EndOfFile⟩, ?_, rfl, ?_⟩
    · rw [hentries]
      exact List.mem_append_right _ (List.mem_singleton.mpr rfl)
    · intro f hf hne
      rw [hentries] at hf hpair
      rcases List.mem_append.mp hf with hf1 | hf2
      · exact (List.pairwise_append.mp hpair).2.2 f hf1 _
          (List.mem_singleton.mpr rfl)
      · exact absurd (List.mem_singleton.mp hf2) hne

/-- Witness for C1: on the fresh 160-byte wheel after one 13-byte write, the
regular block at offset 24 and the sentinel at offset 73 are neighbors and
73 = 24 + 36 + 13. -/
theorem claim_C1_witness :
    (73 : Nat) = 24 + (schemaFresh160.process_write_block_request
        helloWorldBytes []).1.storage_layout.data_size_block_min
      + (BlockHeader.Regular ⟨1⟩ 13).block_size
    ∧ (73 : Nat) - 24 = (schemaFresh160.process_write_block_request
        helloWorldBytes []).1.storage_layout.data_size_block_min
      + (BlockHeader.Regular ⟨1⟩ 13).block_size := by
  have hreach : SchemaReach
      (schemaFresh160.process_write_block_request helloWorldBytes []).1 :=
    SchemaReach.write _ _ _ (SchemaReach.init testLayout 160 (by decide))
  have h := (claim_C1 _ hreach).1 ⟨24, .Regular ⟨1⟩ 13⟩ ⟨73, .EndOfFile⟩
    (by decide)
  exact h

/-- C7.  First write on a fresh wheel: with the §8 layout on a 160-byte wheel,
the first `WriteBlock` of the 13-byte payload "hello, world!" is assigned
block id 1 (serial 1 — the end-of-file sentinel consumed id 0) and placed at
offset 24, leaving exactly one live regular block; ids are assigned by
successive `next()` (`init() = 0`, `next(x) = x + 1`) and are never reused: the
id a write hands out is never currently in the index, and `next_block_id` only
grows. -/
theorem claim_C7 :
    ((schemaFresh160.process_write_block_request helloWorldBytes []).2.1 =
        [(24, ⟨⟨1⟩, helloWorldBytes, .CommitAndEof⟩)]
      ∧ (schemaFresh160.process_write_block_request helloWorldBytes
          []).1.blocks_index.get ⟨1⟩ = some ⟨24, .Regular ⟨1⟩ 13⟩
      ∧ countRegular
          (schemaFresh160.process_write_block_request helloWorldBytes []).1 = 1
      ∧ BlockId.init = ⟨0⟩
      ∧ schemaFresh160.blocks_index.get ⟨0⟩ = some ⟨24, .EndOfFile⟩)
    ∧ (∀ x : BlockId, x.next = ⟨x.serial + 1⟩)
    ∧ (∀ (s : Schema) (bytes : List Nat) (tq : List (Nat × WriteBlockTask)),
        IdsBelow s →
        s.blocks_index.get s.next_block_id = none
        ∧ IdsBelow (s.process_write_block_request bytes tq).1
        ∧ s.next_block_id.serial <
            (s.process_write_block_request bytes tq).1.next_block_id.serial) := by
  refine ⟨?_, fun x => rfl, ?_⟩
  · exact ⟨by decide, by decide, by decide, rfl, by decide⟩
  · intro s bytes tq hbelow
    refine ⟨Blocks.get_eq_none_of_bound hbelow (Nat.le_refl _), ?_, ?_⟩
    · exact (process_write_ids s bytes tq hbelow).1
    · exact (process_write_ids s bytes tq hbelow).2

/-- Witness for C7: the freshness part applied to the fresh 160-byte wheel —
the id about to be assigned (1) is not in the index, and after the write the
counter has grown. -/
theorem claim_C7_witness :
    schemaFresh160.blocks_index.get schemaFresh160.next_block_id = none
    ∧ IdsBelow (schemaFresh160.process_write_block_request helloWorldBytes
        []).1
    ∧ schemaFresh160.next_block_id.serial <
        (schemaFresh160.process_write_block_request helloWorldBytes
          []).1.next_block_id.serial :=
  claim_C7.2.2 schemaFresh160 helloWorldBytes [] (by decide)

/-! ### Flush quiescence (claim C4) -/

theorem pop_flush_fifos {tq tq' : TasksQueue} {c : Nat}
    (h : tq.pop_flush = some (c, tq')) : tq'.fifos = tq.fifos := by
  unfold TasksQueue.pop_flush at h
  cases hf : tq.flush_queue with
  | nil => rw [hf] at h; exact Option.noConfusion h
  | cons x rest =>
    rw [hf] at h
    simp only [Option.some.injEq, Prod.mk.injEq] at h
    rw [← h.2]

theorem bgDispatch_ne_event (i : Inner) (op : PEvent) (p : Inner) :
    i.bgDispatch ≠ .Event op p := by
  unfold Inner.bgDispatch
  split
  · split <;> intro h <;> exact COp.noConfusion h
  · intro h; exact COp.noConfusion h
  · intro h; exact COp.noConfusion h

theorem iter_no_flush (i : Inner) (f : BlockId) (s c : Nat) (p : Inner) :
    i.iter_blocks_stream_next f s ≠ .Event (.FlushFlushed c) p := by
  unfold Inner.iter_blocks_stream_next
  split
  · intro h; simp at h
  · split
    · split
      · intro h; simp at h
      · intro h; exact COp.noConfusion h
    · intro h; exact COp.noConfusion h

theorem proceed_no_flush (i : Inner) (bid : BlockId) (bb bc : Nat)
    (ctx : ReadBlockCtx) (c : Nat) (p : Inner) :
    i.proceed_read_block_task_done bid bb bc ctx ≠
      .Event (.FlushFlushed c) p := by
  unfold Inner.proceed_read_block_task_done
  split
  · intro h; simp at h
  · split
    · intro h; exact COp.noConfusion h
    · split
      · intro h; exact COp.noConfusion h
      · split
        · intro h; exact COp.noConfusion h
        · split
          · intro h; exact COp.noConfusion h
          · intro h; exact COp.noConfusion h
  · intro h; simp at h

theorem pokeRest_flush_quiescent (i i' : Inner) (c : Nat)
    (h : i.pokeRest = .Event (.FlushFlushed c) i') :
    i'.quiescent = true := by
  unfold Inner.pokeRest at h
  cases hd : i.defrag with
  | none =>
    rw [hd] at h
    dsimp only at h
    split at h
    · rename_i hq
      split at h
      · rename_i ctx tq' hpop
        have hf := pop_flush_fifos hpop
        injection h with h1 h2
        subst h2
        unfold Inner.quiescent TasksQueue.is_empty_tasks at hq ⊢
        dsimp only at hq ⊢
        rw [hd] at hq ⊢
        rw [hf]
        exact hq
      · exact absurd h (bgDispatch_ne_event _ _ _)
    · exact absurd h (bgDispatch_ne_event _ _ _)
  | some d =>
    rw [hd] at h
    dsimp only at h
    split at h
    · rename_i hq
      split at h
      · rename_i ctx tq' hpop
        have hf := pop_flush_fifos hpop
        injection h with h1 h2
        subst h2
        unfold Inner.quiescent TasksQueue.is_empty_tasks at hq ⊢
        dsimp only at hq ⊢
        rw [hf]
        exact hq
      · exact absurd h (bgDispatch_ne_event _ _ _)
    · exact absurd h (bgDispatch_ne_event _ _ _)

theorem incoming_poke_flush_quiescent (i i' : Inner) (c : Nat)
    (h : i.incoming_poke = .Event (.FlushFlushed c) i') :
    i'.quiescent = true := by
  unfold Inner.incoming_poke at h
  cases hdt : i.done_task with
  | None =>
    rw [hdt] at h
    dsimp only at h
    exact pokeRest_flush_quiescent _ _ _ h
  | ReadBlock bid bb bc =>
    rw [hdt] at h
    dsimp only at h
    split at h
    · exact COp.noConfusion h
    · split at h
      · exact absurd h (proceed_no_flush _ _ _ _ _ _ _)
      · exact pokeRest_flush_quiescent _ _ _ h
  | DeleteBlockRegular bid be k =>
    rw [hdt] at h
    dsimp only at h
    split at h
    · exact COp.noConfusion h
    · split at h
      · exact COp.noConfusion h
      · split at h
        · exact COp.noConfusion h
        · split at h
          · simp at h
          · exact absurd h (iter_no_flush _ _ _ _ _)
          · split at h
            · exact COp.noConfusion h
            · split at h
              · simp at h
              · split at h
                · exact COp.noConfusion h
                · exact pokeRest_flush_quiescent _ _ _ h
  | DeleteBlockDefrag bid bb bc k =>
    rw [hdt] at h
    dsimp only at h
    split at h
    · exact absurd h (proceed_no_flush _ _ _ _ _ _ _)
    · split at h
      · exact COp.noConfusion h
      · exact pokeRest_flush_quiescent _ _ _ h

theorem incoming_request_no_flush (j j' : Inner) (r : Request) (c : Nat) :
    j.incoming_request r ≠ .Event (.FlushFlushed c) j' := by
  cases r with
  | Info ctx =>
    show j.incoming_request_info ctx ≠ _
    unfold Inner.incoming_request_info
    split
    · intro h; simp at h
    · dsimp only
      split
      · intro h; exact COp.noConfusion h
      · intro h; simp at h
  | Flush ctx =>
    show j.incoming_request_flush ctx ≠ _
    unfold Inner.incoming_request_flush
    intro h; exact COp.noConfusion h
  | WriteBlock bb crc ctx =>
    show j.incoming_request_write_block bb crc ctx ≠ _
    unfold Inner.incoming_request_write_block
    dsimp only
    split
    · intro h; exact COp.noConfusion h
    · intro h; exact COp.noConfusion h
    · intro h; simp at h
  | ReadBlock bid ctx =>
    show j.incoming_request_read_block bid ctx ≠ _
    unfold Inner.incoming_request_read_block
    split
    · split
      · intro h; simp at h
      · intro h; exact COp.noConfusion h
    · intro h; simp at h
  | DeleteBlock bid ctx =>
    show j.incoming_request_delete_block bid ctx ≠ _
    unfold Inner.incoming_request_delete_block
    split
    · intro h; exact COp.noConfusion h
    · intro h; simp at h
  | IterBlocks ctx =>
    show j.incoming_request_iter_blocks ctx ≠ _
    unfold Inner.incoming_request_iter_blocks
    intro h; exact COp.noConfusion h

theorem incoming_interpreter_no_flush (j j' : Inner) (d : TaskDone)
    (c : Nat) : j.incoming_interpreter d ≠ .Event (.FlushFlushed c) j' := by
  unfold Inner.incoming_interpreter
  cases d.kind with
  | WriteBlock ctx =>
    cases ctx with
    | External c0 => intro h; simp at h
    | Defrag =>
      dsimp only
      split
      · intro h; exact COp.noConfusion h
      · split
        · intro h; exact COp.noConfusion h
        · intro h; exact COp.noConfusion h
  | ReadBlock bb bc ctx =>
    dsimp only
    exact proceed_no_flush _ _ _ _ _ _ _
  | DeleteBlock ctx =>
    cases ctx with
    | External c0 =>
      dsimp only
      split
      · intro h; exact COp.noConfusion h
      · intro h; simp at h
    | Defrag g bb bc =>
      dsimp only
      split
      · intro h; exact COp.noConfusion h
      · intro h; exact COp.noConfusion h

/-- C4.  Flush quiescence: whenever a poke of the performer emits
`Event::Flush{Flushed}`, the per-block task queue of the resulting performer
is completely empty (no pending task, nothing in flight) and no
defragmentation move is in progress; a `Flush` request itself merely appends
its context to the flush slot and returns `Idle`, leaving everything else
untouched; and neither request intake nor interpreter completions ever emit
`Flush{Flushed}` — it is emitted by `next()` alone, under the quiescence
test. -/
theorem claim_C4 (i i' : Inner) (context : Nat)
    (h : i.incoming_poke = .Event (.FlushFlushed context) i') :
    (i'.tasks_queue.is_empty_tasks = true
      ∧ ∀ d, i'.defrag = some d → d.in_progress_tasks_count = 0)
    ∧ (∀ (j : Inner) (c : Nat),
        j.incoming_request_flush c =
          .Idle { j with tasks_queue := j.tasks_queue.push_flush c })
    ∧ (∀ (j j' : Inner) (r : Request) (c : Nat),
        j.incoming_request r ≠ .Event (.FlushFlushed c) j')
    ∧ (∀ (j j' : Inner) (d : TaskDone) (c : Nat),
        j.incoming_interpreter d ≠ .Event (.FlushFlushed c) j') := by
  have hq := incoming_poke_flush_quiescent i i' context h
  unfold Inner.quiescent at hq
  rw [Bool.and_eq_true] at hq
  refine ⟨⟨hq.1, ?_⟩, fun j c => rfl, ?_, ?_⟩
  · intro d hd
    have h2 := hq.2
    rw [hd] at h2
    simpa using h2
  · intro j j' r c
    exact incoming_request_no_flush j j' r c
  · intro j j' d c
    exact incoming_interpreter_no_flush j j' d c

/-- Witness for C4: a quiescent performer holding one parked flush waiter
(context 7) emits `Flush{Flushed}` on the next poke, and the resulting state
is indeed empty-and-idle. -/
theorem claim_C4_witness :
    (innerFlushDone.tasks_queue.is_empty_tasks = true
      ∧ ∀ d, innerFlushDone.defrag = some d → d.in_progress_tasks_count = 0)
    ∧ (∀ (j : Inner) (c : Nat),
        j.incoming_request_flush c =
          .Idle { j with tasks_queue := j.tasks_queue.push_flush c })
    ∧ (∀ (j j' : Inner) (r : Request) (c : Nat),
        j.incoming_request r ≠ .Event (.FlushFlushed c) j')
    ∧ (∀ (j j' : Inner) (d : TaskDone) (c : Nat),
        j.incoming_interpreter d ≠ .Event (.FlushFlushed c) j') :=
  claim_C4 innerFlushReady innerFlushDone 7 (by decide)

/-! ### NoSpaceLeft / pending-defrag routing (claim C2) -/

theorem allocate_noSpace_total {g : CoreGaps} {req : Nat}
    {blocks : CMap CoreBlockEntry}
    (h : (g.allocate req blocks).2 = .NoSpaceLeft) : g.space_total < req := by
  unfold CoreGaps.allocate at h
  split at h
  · exact absurd h (by simp)
  · split at h
    · exact absurd h (by simp)
    · omega

/-- C2 (amended).  Write-request routing with the reserved-aggregate
accounting: with defragmentation enabled, a request whose allocation returns
`PendingDefragmentation` is queued into the pending-defrag queue (held, not
rejected), and a request whose allocation fails outright is rejected with
`NoSpaceLeft` exactly when `pending_bytes + space_required` exceeds the
aggregate free space, else it too is held; with defragmentation disabled,
every request that fits no single gap is rejected with `NoSpaceLeft`. -/
theorem claim_C2 (i : Inner) (block_bytes : Nat) (block_crc : Option Nat)
    (context : Nat) :
    (∀ d, i.defrag = some d →
      ((i.schema.gaps.allocate block_bytes i.schema.blocks_index).2 =
          .PendingDefragmentation →
        i.incoming_request_write_block block_bytes block_crc context =
          .Idle { i with defrag := some (d.pendingPush
            ⟨context, block_bytes⟩ block_bytes) })
      ∧ ((i.schema.gaps.allocate block_bytes i.schema.blocks_index).2 =
            .NoSpaceLeft →
          (i.schema.gaps.space_total < d.pending_bytes + block_bytes →
            i.incoming_request_write_block block_bytes block_crc context =
              .Event (.WriteBlockNoSpaceLeft context) i)
          ∧ (d.pending_bytes + block_bytes ≤ i.schema.gaps.space_total →
            i.incoming_request_write_block block_bytes block_crc context =
              .Idle { i with defrag := some (d.pendingPush
                ⟨context, block_bytes⟩ block_bytes) })))
    ∧ (i.defrag = none →
        (∀ sa res,
          (i.schema.gaps.allocate block_bytes i.schema.blocks_index).2 ≠
            .Success sa res) →
        i.incoming_request_write_block block_bytes block_crc context =
          .Event (.WriteBlockNoSpaceLeft context) i) := by
  have hmain : ∀ (dpb : Option Nat), i.defrag.map (fun d => d.pending_bytes)
      = dpb →
      (((i.schema.gaps.allocate block_bytes i.schema.blocks_index).2 =
          .PendingDefragmentation ∧ dpb ≠ none) ∨
        ((i.schema.gaps.allocate block_bytes i.schema.blocks_index).2 =
          .NoSpaceLeft ∧
          dpb.getD 0 + block_bytes ≤ i.schema.gaps.space_total) →
        i.incoming_request_write_block block_bytes block_crc context =
          .Idle { i with defrag := i.defrag.map (fun d =>
            d.pendingPush ⟨context, block_bytes⟩ block_bytes) })
      ∧ (((i.schema.gaps.allocate block_bytes i.schema.blocks_index).2 =
          .PendingDefragmentation ∧ dpb = none) ∨
        ((i.schema.gaps.allocate block_bytes i.schema.blocks_index).2 =
          .NoSpaceLeft ∧
          i.schema.gaps.space_total < dpb.getD 0 + block_bytes) →
        i.incoming_request_write_block block_bytes block_crc context =
          .Event (.WriteBlockNoSpaceLeft context) i) := by
    intro dpb hdpb
    unfold Inner.incoming_request_write_block
      CoreSchema.process_write_block_request
    rw [hdpb]
    dsimp only
    rcases hA : i.schema.gaps.allocate block_bytes i.schema.blocks_index
      with ⟨ga, out⟩
    dsimp only
    cases out with
    | Success sa res =>
      constructor
      · rintro (⟨habs, -⟩ | ⟨habs, -⟩) <;> exact absurd habs (by simp)
      · rintro (⟨habs, -⟩ | ⟨habs, -⟩) <;> exact absurd habs (by simp)
    | PendingDefragmentation =>
      cases dpb with
      | none =>
        refine ⟨?_, fun _ => rfl⟩
        rintro (⟨-, habs⟩ | ⟨habs, -⟩)
        · exact absurd rfl habs
        · exact absurd habs (by simp)
      | some pb =>
        refine ⟨fun _ => rfl, ?_⟩
        rintro (⟨-, habs⟩ | ⟨habs, -⟩)
        · exact absurd habs (by simp)
        · exact absurd habs (by simp)
    | NoSpaceLeft =>
      dsimp only
      constructor
      · rintro (⟨habs, -⟩ | ⟨-, hle⟩)
        · exact absurd habs (by simp)
        · rw [if_neg (by omega)]
      · rintro (⟨habs, -⟩ | ⟨-, hlt⟩)
        · exact absurd habs (by simp)
        · rw [if_pos (by omega)]
  constructor
  · intro d hd
    have hm := hmain (some d.pending_bytes) (by rw [hd]; rfl)
    refine ⟨?_, ?_⟩
    · intro hp
      have := hm.1 (Or.inl ⟨hp, by simp⟩)
      rw [hd] at this
      exact this
    · intro hn
      refine ⟨?_, ?_⟩
      · intro hlt
        exact hm.2 (Or.inr ⟨hn, by simpa using hlt⟩)
      · intro hle
        have := hm.1 (Or.inr ⟨hn, by simpa using hle⟩)
        rw [hd] at this
        exact this
  · intro hd hnosucc
    have hm := hmain none (by rw [hd]; rfl)
    cases hout : (i.schema.gaps.allocate block_bytes
        i.schema.blocks_index).2 with
    | Success sa res => exact absurd hout (hnosucc _ _)
    | PendingDefragmentation => exact hm.2 (Or.inl ⟨hout, rfl⟩)
    | NoSpaceLeft =>
      have hlt := allocate_noSpace_total hout
      exact hm.2 (Or.inr ⟨hout, by simpa using hlt⟩)

/-- Counterexample to C2 as stated: in the fragmented wheel `c2Schema`
(gaps of 10 and 8 payload bytes, 15 bytes already reserved by a pending
defrag write) the aggregate free space minus the reserved bytes cannot hold
a 4-byte write — yet the performer does not reply `NoSpaceLeft`: the write
fits the 8-byte gap alone and is performed (an `Idle` with the write task
queued).  The reserved-aggregate test is consulted only after best-fit
allocation has already failed. -/
theorem claim_C2_counterexample :
    c2Schema.gaps.space_total < c2Defrag.pending_bytes + 4
    ∧ c2Defrag.pending_bytes =
        (c2Defrag.pending.map (fun p => p.block_bytes)).sum
    ∧ (c2Schema.process_write_block_request 4
        (some c2Defrag.pending_bytes)).2 =
        .Perform .None ⟨2⟩ 117 none
    ∧ ∃ i', c2Inner.incoming_request_write_block 4 none 99 = .Idle i' := by
  refine ⟨by decide, by decide, by decide, ?_⟩
  exact ⟨_, rfl⟩

/-- Witness for C2: in the fragmented wheel a 12-byte request fits no single
gap but fits the aggregate, so it is queued pending defragmentation; a
25-byte request exceeds even the aggregate and is rejected; with
defragmentation disabled the 12-byte request is rejected outright. -/
theorem claim_C2_witness :
    c2Inner.incoming_request_write_block 12 none 42 =
      .Idle { c2Inner with defrag := some (c2Defrag.pendingPush ⟨42, 12⟩ 12) }
    ∧ c2Inner.incoming_request_write_block 25 none 43 =
      .Event (.WriteBlockNoSpaceLeft 43) c2Inner
    ∧ c2InnerNoDefrag.incoming_request_write_block 12 none 44 =
      .Event (.WriteBlockNoSpaceLeft 44) c2InnerNoDefrag :=
  ⟨((claim_C2 c2Inner 12 none 42).1 c2Defrag rfl).1 (by decide),
   (((claim_C2 c2Inner 25 none 43).1 c2Defrag rfl).2 (by decide)).1
     (by decide),
   (claim_C2 c2InnerNoDefrag 12 none 44).2 rfl (by
     intro sa res h
     rw [show (c2InnerNoDefrag.schema.gaps.allocate 12
         c2InnerNoDefrag.schema.blocks_index).2 =
           CoreAllocated.PendingDefragmentation from by decide] at h
     exact CoreAllocated.noConfusion h)⟩

/-! ### The deferred delete drain (claim C5) -/

theorem cfind_none_filter {β : Type} (p q : BlockId × β → Bool)
    (l : List (BlockId × β)) (h : l.find? p = none) :
    (l.filter q).find? p = none := by
  rw [List.find?_eq_none] at h ⊢
  intro x hx
  exact h x (List.mem_of_mem_filter hx)

theorem cmap_get_remove_key {β : Type} (m : CMap β) (k : BlockId) :
    (m.remove k).get k = none := by
  unfold CMap.remove CMap.get
  have : (m.kvs.filter (fun p => ¬ p.1 = k)).find? (fun p => p.1 == k) =
      none := by
    rw [List.find?_eq_none]
    intro x hx
    have hq := List.of_mem_filter hx
    simp only [decide_not, Bool.not_eq_true', decide_eq_false_iff_not] at hq
    simp [hq]
  rw [this]
  rfl

theorem CMap.get_remove_none {β : Type} (m : CMap β) (j k : BlockId)
    (h : m.get k = none) : (m.remove j).get k = none := by
  unfold CMap.remove CMap.get
  unfold CMap.get at h
  rw [Option.map_eq_none'] at h
  rw [cfind_none_filter _ _ _ h]
  rfl

theorem cfind_filter_of_imp {β : Type} (p q : BlockId × β → Bool)
    (l : List (BlockId × β)) (himp : ∀ x, p x = true → q x = true) :
    (l.filter q).find? p = l.find? p := by
  induction l with
  | nil => rfl
  | cons x rest ih =>
    rw [List.filter_cons]
    by_cases hq : q x = true
    · rw [if_pos hq]
      cases hp : p x with
      | true => rw [List.find?_cons_of_pos _ hp, List.find?_cons_of_pos _ hp]
      | false =>
        rw [List.find?_cons_of_neg _ (by simp [hp]),
          List.find?_cons_of_neg _ (by simp [hp])]
        exact ih
    · rw [if_neg hq]
      have hp : p x = false := by
        cases hpx : p x with
        | false => rfl
        | true => exact absurd (himp x hpx) hq
      rw [List.find?_cons_of_neg _ (by simp [hp])]
      exact ih

theorem cmap_get_insert_ne {β : Type} (m : CMap β) (k k' : BlockId) (v : β)
    (hne : k' ≠ k) : (m.insert k v).get k' = m.get k' := by
  unfold CMap.insert CMap.get
  rw [List.find?_cons_of_neg _ (by simp [Ne.symm hne])]
  rw [cfind_filter_of_imp]
  intro x hx
  simp only [beq_iff_eq] at hx
  simp [hx, hne]

theorem applyCancels_count : ∀ (n : Nat) (d : CoreDefrag)
    (r : Option CoreDefrag), applyCancels (some d) n = some r →
    n ≤ d.in_progress_tasks_count ∧
      r = some { d with in_progress_tasks_count :=
        d.in_progress_tasks_count - n } := by
  intro n
  induction n with
  | zero =>
    intro d r h
    refine ⟨Nat.zero_le _, ?_⟩
    unfold applyCancels at h
    exact (Option.some.inj h).symm
  | succ n ih =>
    intro d r h
    unfold applyCancels cancelDefragTask at h
    dsimp only at h
    by_cases hc : 0 < d.in_progress_tasks_count
    · rw [if_pos hc] at h
      dsimp only at h
      have h2 := ih _ _ h
      dsimp only at h2
      refine ⟨by omega, ?_⟩
      rw [h2.2]
      have h3 : d.in_progress_tasks_count - 1 - n =
          d.in_progress_tasks_count - (n + 1) := by omega
      rw [h3]
    · rw [if_neg hc] at h
      dsimp only at h
      exact Option.noConfusion h

theorem delete_done_removes (s : CoreSchema) (Y : BlockId)
    (s' : CoreSchema) (dd : CoreDeleteDone)
    (h : s.process_delete_block_task_done Y = some (s', dd)) :
    s'.blocks_index.get Y = none
    ∧ s'.next_block_id = s.next_block_id
    ∧ (∃ e0, s.blocks_index.get Y = some e0)
    ∧ ∀ X, s.blocks_index.get X = none → s'.blocks_index.get X = none := by
  unfold CoreSchema.process_delete_block_task_done at h
  split at h
  · exact Option.noConfusion h
  · rename_i e he
    dsimp only at h
    have h1 := Option.some.inj h
    injection h1 with hA hB
    subst hA
    refine ⟨cmap_get_remove_key _ _, rfl, ⟨e, he⟩, ?_⟩
    intro X hX
    exact CMap.get_remove_none _ _ _ hX

theorem delete_done_defrag_preserves (s : CoreSchema) (Y : BlockId)
    (s' : CoreSchema) (dd : CoreDeleteDoneDefrag)
    (h : s.process_delete_block_task_done_defrag Y = some (s', dd)) :
    s'.next_block_id = s.next_block_id
    ∧ ∀ X, s.blocks_index.get X = none → s'.blocks_index.get X = none := by
  unfold CoreSchema.process_delete_block_task_done_defrag at h
  split at h
  · exact Option.noConfusion h
  · rename_i s1 done hdone
    have hrem := delete_done_removes _ _ _ _ hdone
    dsimp only at h
    split at h <;>
    · have h1 := Option.some.inj h
      injection h1 with hA hB
      subst hA
      refine ⟨hrem.2.1, ?_⟩
      intro X hX
      have hXY : X ≠ Y := by
        intro hxy
        obtain ⟨e0, he0⟩ := hrem.2.2.1
        rw [hxy, he0] at hX
        exact Option.noConfusion hX
      rw [cmap_get_insert_ne _ _ _ _ hXY]
      exact hrem.2.2.2 X hX

theorem write_preserves_absent (s : CoreSchema) (bytes : Nat)
    (dpb : Option Nat) (X : BlockId)
    (h1 : s.blocks_index.get X = none)
    (h2 : X.serial < s.next_block_id.serial) :
    (s.process_write_block_request bytes dpb).1.blocks_index.get X = none
    ∧ X.serial <
        (s.process_write_block_request bytes dpb).1.next_block_id.serial := by
  unfold CoreSchema.process_write_block_request
  dsimp only
  rcases hA : s.gaps.allocate bytes s.blocks_index with ⟨ga, out⟩
  cases out with
  | Success sa res =>
    dsimp only
    have hne : X ≠ s.next_block_id := by
      intro hx
      rw [hx] at h2
      omega
    split <;>
    · refine ⟨?_, ?_⟩
      · rw [cmap_get_insert_ne _ _ _ _ hne]
        exact h1
      · simp only [BlockId.serial_next]
        omega
  | PendingDefragmentation =>
    dsimp only
    cases dpb <;> exact ⟨h1, h2⟩
  | NoSpaceLeft =>
    dsimp only
    split <;> exact ⟨h1, h2⟩

theorem absent_read_delete_notfound (i : Inner) (X : BlockId) (c : Nat)
    (h : i.schema.blocks_index.get X = none) :
    i.incoming_request_read_block X c = .Event (.ReadBlockNotFound c) i
    ∧ i.incoming_request_delete_block X c =
        .Event (.DeleteBlockNotFound c) i := by
  unfold Inner.incoming_request_read_block Inner.incoming_request_delete_block
    CoreSchema.process_read_block_request
    CoreSchema.process_delete_block_request
  rw [h]
  exact ⟨rfl, rfl⟩

theorem drain_read_waiter (i : Inner) (X : BlockId) (e : CoreBlockEntry)
    (k : SpaceKey) (wc : Nat) (p1 : List CoreTaskKind)
    (defrag1 : Option CoreDefrag) (rc : Nat) (p2 : List CoreTaskKind)
    (c : Nat) (defrag2 : Option CoreDefrag)
    (hdt : i.done_task = .DeleteBlockRegular X e k)
    (hdw : drainWrites (i.tasks_queue.fifoOf X).pending = some (wc, p1))
    (hc1 : applyCancels i.defrag wc = some defrag1)
    (hdr : drainReads p1 = (rc, p2, some (.External c)))
    (hc2 : applyCancels defrag1 rc = some defrag2) :
    i.incoming_poke = .Event (.ReadBlockNotFound c)
      { i with defrag := defrag2,
               tasks_queue := i.tasks_queue.setPending X p2,
               done_task := .DeleteBlockRegular X e k } := by
  unfold Inner.incoming_poke
  rw [hdt]
  dsimp only
  rw [hdw]
  dsimp only
  rw [hc1]
  dsimp only
  rw [hdr]
  dsimp only
  rw [hc2]

theorem drain_delete_waiter (i : Inner) (X : BlockId) (e : CoreBlockEntry)
    (k : SpaceKey) (wc : Nat) (p1 : List CoreTaskKind)
    (defrag1 : Option CoreDefrag) (rc : Nat) (p2 : List CoreTaskKind)
    (defrag2 : Option CoreDefrag) (dc : Nat) (p3 : List CoreTaskKind)
    (c : Nat) (defrag3 : Option CoreDefrag)
    (hdt : i.done_task = .DeleteBlockRegular X e k)
    (hdw : drainWrites (i.tasks_queue.fifoOf X).pending = some (wc, p1))
    (hc1 : applyCancels i.defrag wc = some defrag1)
    (hdr : drainReads p1 = (rc, p2, none))
    (hc2 : applyCancels defrag1 rc = some defrag2)
    (hdd : drainDeletes p2 = (dc, p3, some c))
    (hc3 : applyCancels defrag2 dc = some defrag3) :
    i.incoming_poke = .Event (.DeleteBlockNotFound c)
      { i with defrag := defrag3,
               tasks_queue := i.tasks_queue.setPending X p3,
               done_task := .DeleteBlockRegular X e k } := by
  unfold Inner.incoming_poke
  rw [hdt]
  dsimp only
  rw [hdw]
  dsimp only
  rw [hc1]
  dsimp only
  rw [hdr]
  dsimp only
  rw [hc2]
  dsimp only
  rw [hdd]
  dsimp only
  rw [hc3]

/-- C5 (amended).  Deferred delete drain: with `done_task` staged as
`DeleteBlockRegular` for block X, a poke drains the tasks still queued on X
front to back — every defrag-tagged write and read up to the first external
read waiter is cancelled and that waiter receives `ReadBlock NotFound` (the
drain position and the staged task are kept, so the next poke continues);
when no read waiter remains, defrag-tagged deletes are cancelled likewise and
the first external delete waiter receives `DeleteBlock NotFound`; each
cancellation decrements the in-progress defrag counter.  An iterator read
queued on X instead aborts the drain (see the counterexample).  After the
delete completion X is gone from the block index, absence of X is preserved
by every schema transition, and read/delete requests on an absent X reply
`NotFound`. -/
theorem claim_C5 (i : Inner) (X : BlockId) (e : CoreBlockEntry) (k : SpaceKey)
    (hdt : i.done_task = .DeleteBlockRegular X e k) :
    (∀ wc p1 defrag1 rc p2 c defrag2,
      drainWrites (i.tasks_queue.fifoOf X).pending = some (wc, p1) →
      applyCancels i.defrag wc = some defrag1 →
      drainReads p1 = (rc, p2, some (.External c)) →
      applyCancels defrag1 rc = some defrag2 →
      i.incoming_poke = .Event (.ReadBlockNotFound c)
        { i with defrag := defrag2,
                 tasks_queue := i.tasks_queue.setPending X p2,
                 done_task := .DeleteBlockRegular X e k })
    ∧ (∀ wc p1 defrag1 rc p2 defrag2 dc p3 c defrag3,
      drainWrites (i.tasks_queue.fifoOf X).pending = some (wc, p1) →
      applyCancels i.defrag wc = some defrag1 →
      drainReads p1 = (rc, p2, none) →
      applyCancels defrag1 rc = some defrag2 →
      drainDeletes p2 = (dc, p3, some c) →
      applyCancels defrag2 dc = some defrag3 →
      i.incoming_poke = .Event (.DeleteBlockNotFound c)
        { i with defrag := defrag3,
                 tasks_queue := i.tasks_queue.setPending X p3,
                 done_task := .DeleteBlockRegular X e k })
    ∧ (∀ (n : Nat) (d : CoreDefrag) (r : Option CoreDefrag),
      applyCancels (some d) n = some r →
      n ≤ d.in_progress_tasks_count ∧
        r = some { d with in_progress_tasks_count :=
          d.in_progress_tasks_count - n })
    ∧ (∀ (s s' : CoreSchema) (dd : CoreDeleteDone),
      s.process_delete_block_task_done X = some (s', dd) →
      s'.blocks_index.get X = none ∧ s'.next_block_id = s.next_block_id)
    ∧ (∀ (j : Inner) (c : Nat), j.schema.blocks_index.get X = none →
      j.incoming_request_read_block X c = .Event (.ReadBlockNotFound c) j
      ∧ j.incoming_request_delete_block X c =
          .Event (.DeleteBlockNotFound c) j)
    ∧ (∀ (s : CoreSchema) (bytes : Nat) (dpb : Option Nat),
      s.blocks_index.get X = none → X.serial < s.next_block_id.serial →
      (s.process_write_block_request bytes dpb).1.blocks_index.get X = none
      ∧ X.serial <
          (s.process_write_block_request bytes dpb).1.next_block_id.serial)
    ∧ (∀ (s s' : CoreSchema) (Y : BlockId) (dd : CoreDeleteDone),
      s.process_delete_block_task_done Y = some (s', dd) →
      s.blocks_index.get X = none → s'.blocks_index.get X = none)
    ∧ (∀ (s s' : CoreSchema) (Y : BlockId) (dd : CoreDeleteDoneDefrag),
      s.process_delete_block_task_done_defrag Y = some (s', dd) →
      s.blocks_index.get X = none → s'.blocks_index.get X = none) := by
  refine ⟨?_, ?_, ?_, ?_, ?_, ?_, ?_, ?_⟩
  · intro wc p1 defrag1 rc p2 c defrag2 hdw hc1 hdr hc2
    exact drain_read_waiter i X e k wc p1 defrag1 rc p2 c defrag2
      hdt hdw hc1 hdr hc2
  · intro wc p1 defrag1 rc p2 defrag2 dc p3 c defrag3 hdw hc1 hdr hc2 hdd hc3
    exact drain_delete_waiter i X e k wc p1 defrag1 rc p2 defrag2 dc p3 c
      defrag3 hdt hdw hc1 hdr hc2 hdd hc3
  · intro n d r h
    exact applyCancels_count n d r h
  · intro s s' dd h
    exact ⟨(delete_done_removes s X s' dd h).1,
      (delete_done_removes s X s' dd h).2.1⟩
  · intro j c h
    exact absent_read_delete_notfound j X c h
  · intro s bytes dpb h1 h2
    exact write_preserves_absent s bytes dpb X h1 h2
  · intro s s' Y dd h habs
    exact (delete_done_removes s Y s' dd h).2.2.2 X habs
  · intro s s' Y dd h habs
    exact (delete_done_defrag_preserves s Y s' dd h).2 X habs

/-- Counterexample to C5 as stated: with `done_task` staged as
`DeleteBlockRegular` for block 1 and an iterator read queued ahead of an
external read waiter (context 7) on that id, the poke advances the iterator
and returns — the external read waiter is still queued, `done_task` has been
cleared (not re-staged), and the next poke merely polls for requests: the
waiter queued on the deleted block is never drained and never receives
`NotFound`. -/
theorem claim_C5_counterexample :
    c5Inner.done_task = .DeleteBlockRegular c5X ⟨65, c5Header⟩ ⟨95⟩
    ∧ Inner.incoming_poke c5Inner = .Event (.IterBlocksFinish 5) c5InnerStuck
    ∧ (c5InnerStuck.tasks_queue.fifoOf c5X).pending =
        [.ReadBlock c5Header 0 (.External 7)]
    ∧ c5InnerStuck.done_task = .None
    ∧ Inner.incoming_poke c5InnerStuck = .PollRequest c5InnerStuck := by
  exact ⟨rfl, by decide, by decide, rfl, by decide⟩

/-- Witness for C5: in `c5DrainInner` (a defrag-tagged read then an external
read queued on the deleted block 1, one defrag move in flight) the poke
cancels the defrag read — the counter drops from 1 to 0 — and serves the
external waiter with `ReadBlock NotFound`, re-staging the done task. -/
theorem claim_C5_witness :
    Inner.incoming_poke c5DrainInner = .Event (.ReadBlockNotFound 7)
      { c5DrainInner with defrag := some ⟨[], 0, [], 0, 1⟩,
                          tasks_queue :=
                            c5DrainInner.tasks_queue.setPending c5X [],
                          done_task :=
                            .DeleteBlockRegular c5X ⟨65, c5Header⟩ ⟨95⟩ } :=
  (claim_C5 c5DrainInner c5X ⟨65, c5Header⟩ ⟨95⟩ rfl).1 0
    [.ReadBlock c5Header 0 (.Defrag ⟨⟨95⟩, ⟨0⟩⟩),
      .ReadBlock c5Header 0 (.External 7)]
    (some c5Defrag1) 1 [] 7 (some ⟨[], 0, [], 0, 1⟩)
    (by decide) (by decide) (by decide) (by decide)

end Blockwheel
